import Mathlib

/-!
# Verification of pydantic-dynamo's expression-building and pagination core

Shallow embedding of the repository's pure core (pydantic_dynamo/utils.py,
pydantic_dynamo/repository.py, pydantic_dynamo/v2/repository.py) and proofs
about it.  Python strings used as key material are modelled as `List Char`
(`PyStr`); Python dictionaries are association lists in insertion order
(Python dicts preserve insertion order); machine integers are `Int`.
Fallible Python code (statements that can raise) returns `Option`/`Except`.
-/

/-- Python strings, modelled as character lists so that joining/splitting on
the `#` separator can be reasoned about elementwise. -/
abbrev PyStr := List Char

/- The dynamic Python value universe handled by `clean_dict` / `clean_value`
(utils.py).  `prim*` constructors are the store-primitive scalars that
`clean_value` leaves unchanged; `pdate` is a `date`/`time`/`datetime` carrying
its `isoformat()` rendering; `penum` is an `Enum` member carrying its
underlying `.value`; `model` is a pydantic `BaseModel` carrying the entries of
its `.dict()`; `dict`/`plist`/`pset` are the container kinds `clean_dict`
distinguishes with `isinstance`. -/
mutual
inductive PyVal : Type where
  | pint : Int → PyVal
  | pstr : String → PyVal
  | pnone : PyVal
  | pdate : String → PyVal
  | penum : PyVal → PyVal
  | model : PyObj → PyVal
  | dict : PyObj → PyVal
  | plist : PyList → PyVal
  | pset : PyList → PyVal
  deriving DecidableEq

inductive PyObj : Type where
  | nil : PyObj
  | cons : String → PyVal → PyObj → PyObj
  deriving DecidableEq

inductive PyList : Type where
  | nil : PyList
  | cons : PyVal → PyList → PyList
  deriving DecidableEq
end

/-- The entries of a Python dict as a Lean association list. -/
def PyObj.entries : PyObj → List (String × PyVal)
  | .nil => []
  | .cons k v rest => (k, v) :: rest.entries

/-! ## ValueNormalizer: clean_value / clean_dict (utils.py lines 67-100) -/

/-- `clean_value` (utils.py 92-100): date/time/datetime to its isoformat
string, Enum to its underlying value, BaseModel to its (shallow, uncleaned)
`.dict()`, anything else unchanged. -/
def clean_value : PyVal → PyVal
  | .pdate iso => .pstr iso
  | .penum v => v
  | .model d => .dict d
  | v => v

/-- `isinstance(v, Dict)` test used by `clean_dict`. -/
def PyVal.isDict : PyVal → Bool
  | .dict _ => true
  | _ => false

/-- `isinstance(v, BaseModel)` test used by `clean_dict`. -/
def PyVal.isModel : PyVal → Bool
  | .model _ => true
  | _ => false

mutual
/- `clean_dict` (utils.py 67-89).  The Python implementation keeps a work
list of dictionaries and mutates them in place; since the dictionaries it
pushes are exactly the nested ones, the net effect on the value tree is the
recursion below.  Python raises (AttributeError) when a collection whose
first element is a Dict/BaseModel contains an element of another kind, hence
the `Option`. -/
def clean_dict : PyObj → Option PyObj
  | .nil => some .nil
  | .cons k v rest => do
      let v' ← cleanEntry v
      let rest' ← clean_dict rest
      return .cons k v' rest'

/- One `for k, v in current_dict.items()` iteration body of `clean_dict`:
the replacement value stored at the key. -/
def cleanEntry : PyVal → Option PyVal
  | .dict d => (clean_dict d).map .dict
  | .model d => (clean_dict d).map .dict
  | .plist .nil => some (.plist .nil)
  | .pset .nil => some (.pset .nil)
  | .plist (.cons h t) =>
      if h.isDict then (cleanAllDicts (.cons h t)).map .plist
      else if h.isModel then (cleanAllModels (.cons h t)).map .plist
      else some (.plist (cleanScalars (.cons h t)))
  | .pset (.cons h t) =>
      if h.isDict then (cleanAllDicts (.cons h t)).map .pset
      else if h.isModel then (cleanAllModels (.cons h t)).map .plist
      else some (.plist (cleanScalars (.cons h t)))
  | v => some (clean_value v)

/- Collection branch for first element a Dict: every element is pushed on
the work list (so must itself be a Dict) and cleaned in place. -/
def cleanAllDicts : PyList → Option PyList
  | .nil => some .nil
  | .cons (.dict d) rest => do
      let d' ← clean_dict d
      let rest' ← cleanAllDicts rest
      return .cons (.dict d') rest'
  | .cons _ _ => none

/- Collection branch for first element a BaseModel:
`[clean_dict(obj.dict()) for obj in v]`. -/
def cleanAllModels : PyList → Option PyList
  | .nil => some .nil
  | .cons (.model d) rest => do
      let d' ← clean_dict d
      let rest' ← cleanAllModels rest
      return .cons (.dict d') rest'
  | .cons _ _ => none

/- Collection branch for a scalar first element:
`[clean_value(el) for el in v]`. -/
def cleanScalars : PyList → PyList
  | .nil => .nil
  | .cons v rest => .cons (clean_value v) (cleanScalars rest)
end

/-- Store-primitive scalar test (ints, strings, None): the values that
`clean_value` returns unchanged and that conventional Python `Enum` members
carry as their `.value`. -/
def PyVal.isScalarPrim : PyVal → Bool
  | .pint _ => true
  | .pstr _ => true
  | .pnone => true
  | _ => false

mutual
/- Well-formedness used by the amended idempotence claim: every enumeration
member occurring in the structure has a store-primitive underlying value. -/
def enumOkV : PyVal → Bool
  | .pint _ => true
  | .pstr _ => true
  | .pnone => true
  | .pdate _ => true
  | .penum v => v.isScalarPrim
  | .model d => enumOkO d
  | .dict d => enumOkO d
  | .plist l => enumOkL l
  | .pset l => enumOkL l

def enumOkO : PyObj → Bool
  | .nil => true
  | .cons _ v rest => enumOkV v && enumOkO rest

def enumOkL : PyList → Bool
  | .nil => true
  | .cons v rest => enumOkV v && enumOkL rest
end

/-! ## Python dict primitives over association lists

Python dicts preserve insertion order; `d[k] = v` overwrites in place when
the key exists and appends otherwise; `d.pop(k, None)` removes the entry.
On the unique-key association lists that model dicts these are: -/

/-- `d[k] = v` / `d.update(**{k: v})`. -/
def aset (k : String) (v : α) : List (String × α) → List (String × α)
  | [] => [(k, v)]
  | (k', v') :: rest =>
      if k' = k then (k, v) :: rest else (k', v') :: aset k v rest

/-- `d.pop(k, None)` (discarding the returned value). -/
def apop (k : String) : List (String × α) → List (String × α)
  | [] => []
  | (k2, v) :: rest => if k2 = k then apop k rest else (k2, v) :: apop k rest

/-- `d.get(k)` / `d[k]` lookup. -/
def alookup (k : String) : List (String × α) → Option α
  | [] => none
  | (k2, v) :: rest => if k2 = k then some v else alookup k rest

/-- Number of entries stored under key `k` (1 or 0 for a genuine dict). -/
def countKey (k : String) (l : List (String × α)) : Nat :=
  (l.filter (fun p => p.1 = k)).length

/-! ## Reserved internal attribute names (constants.py) -/

def INTERNAL_TIMESTAMP_KEY : String := "_timestamp"
def INTERNAL_OBJECT_VERSION : String := "_object_version"
def INTERNAL_TTL : String := "_ttl"

/-- `clean_dict` applied to a plain association-list dict (such as the
compiler's value table or a filter's `equals` map): each entry's value is
replaced exactly as one `clean_dict` work-list iteration would. -/
def cleanAssoc : List (String × PyVal) → Option (List (String × PyVal))
  | [] => some []
  | (k, v) :: rest => do
      let v' ← cleanEntry v
      let rest' ← cleanAssoc rest
      return (k, v') :: rest'

/-! ## IdentifierCodec (v2/repository.py 318-332, _db_item_to_object 269-283)

Key strings are modelled as `List Char` (`PyStr`). -/

/-- `_partition_id` for a sequence argument:
`f"{self._partition_prefix}#{self._partition_name}#{'#'.join(partition_ids)}"`.
The bare-string overload (treated as a single segment) is not modelled. -/
def partition_id (pfx name : PyStr) (partition_ids : List PyStr) : PyStr :=
  pfx ++ ('#' :: name) ++ ('#' :: List.intercalate ['#'] partition_ids)

/-- `_content_id`: `f"{self._content_type}#{'#'.join(content_ids)}"`. -/
def content_id (contentType : PyStr) (content_ids : List PyStr) : PyStr :=
  contentType ++ ('#' :: List.intercalate ['#'] content_ids)

/-- Python `s.replace(pat, "", 1)`: drop the leftmost occurrence of `pat`. -/
def replaceFirst (pat : PyStr) : PyStr → PyStr
  | [] => []
  | c :: rest =>
      if pat.isPrefixOf (c :: rest) then List.drop pat.length (c :: rest)
      else c :: replaceFirst pat rest

/-- Read-back of `partition_ids` in `_db_item_to_object`:
`db_item.pop(pk).replace(self._partition_id(EMPTY_LIST), "", 1).split("#")`. -/
def parse_partition_ids (pfx name : PyStr) (key : PyStr) : List PyStr :=
  (replaceFirst (partition_id pfx name []) key).splitOn '#'

/-! ## Condition expressions (boto3 `Attr(...)` terms, as built by utils.py) -/

/-- Values compared against in conditions: key strings, the integer version
counter, or normalized item values (filters). -/
inductive CondV : Type where
  | s : String → CondV
  | i : Int → CondV
  | v : PyVal → CondV
  deriving DecidableEq

/-- Condition tree: `Attr(k).eq/ne/not_exists` leaves and `&` nodes. -/
inductive Cond : Type where
  | attrEq : String → CondV → Cond
  | attrNe : String → CondV → Cond
  | attrNotExists : String → Cond
  | and : Cond → Cond → Cond
  deriving DecidableEq

/-- The `condition = condition & new if condition else new` accumulation
pattern used throughout utils.py. -/
def condAnd : Option Cond → Cond → Option Cond
  | none, c => some c
  | some c0, c => some (.and c0 c)

/-- Left-to-right leaves of an `&`-tree. -/
def Cond.leaves : Cond → List Cond
  | .and a b => a.leaves ++ b.leaves
  | c => [c]

/-! ## UpdateCommand / FilterCommand (models.py) -/

/-- `UpdateCommand`.  `expiry` is a datetime, represented by the epoch
seconds `int(expiry_dt.timestamp())` that is the only use made of it;
`append_attrs` values are `Optional[List[...]]`. -/
structure UpdateCommand where
  current_version : Option Int := none
  set_commands : List (String × PyVal) := []
  increment_attrs : List (String × Int) := []
  append_attrs : List (String × Option PyList) := []
  expiry : Option Int := none
  deriving DecidableEq

/-- `FilterCommand`.  `not_exists` is a `Set[str]`, modelled in its
iteration order. -/
structure FilterCommand where
  not_exists : List String := []
  equals : List (String × PyVal) := []
  not_equals : List (String × PyVal) := []
  deriving DecidableEq

/-- Python truthiness of `command.current_version : Optional[int]`:
`None` and `0` are falsy. -/
def truthyVersion : Option Int → Bool
  | none => false
  | some v => v != 0

/-- `build_update_condition` (utils.py 204-223). -/
def build_update_condition (command : UpdateCommand)
    (key : Option (List (String × String))) : Option Cond :=
  let condition := (key.getD []).foldl
    (fun acc (kv : String × String) => condAnd acc (.attrEq kv.1 (.s kv.2))) none
  if truthyVersion command.current_version then
    condAnd condition
      (.attrEq INTERNAL_OBJECT_VERSION (.i (command.current_version.getD 0)))
  else condition

/-- `build_filter_expression` (utils.py 226-249): AND `attribute_not_exists`
per `not_exists` field, then equality per normalized `equals` entry, then
inequality per normalized `not_equals` entry; `none` result when the filter
is empty.  The outer `Option` is failure of `clean_dict` on a filter map. -/
def build_filter_expression (filters : FilterCommand) : Option (Option Cond) := do
  let c1 := filters.not_exists.foldl (fun acc a => condAnd acc (.attrNotExists a)) none
  let ce ← cleanAssoc filters.equals
  let c2 := ce.foldl (fun acc (kv : String × PyVal) => condAnd acc (.attrEq kv.1 (.v kv.2))) c1
  let cn ← cleanAssoc filters.not_equals
  return cn.foldl (fun acc (kv : String × PyVal) => condAnd acc (.attrNe kv.1 (.v kv.2))) c2

/-! ## Schema model and CommandValidator (utils.py 252-315)

A pydantic `Model.schema()` is reduced to what the validator reads: the
`title`, the `properties` map (each property's `"type"` and `"$ref"` keys),
and the `definitions` map from a definition name to that nested schema's
`properties`.  A property modelled here is a non-empty dict (pydantic never
emits `{}`), so `if not schema_prop` is exactly `lookup = none`. -/

structure SchemaProp where
  type : Option String := none
  ref : Option String := none
  deriving DecidableEq

structure Schema where
  title : String := ""
  properties : List (String × SchemaProp) := []
  definitions : List (String × List (String × SchemaProp)) := []
  deriving DecidableEq

/-- `schema_prop_ref.split("/")[-1]`, computed on the underlying character
list. -/
def refName (r : String) : String := String.mk ((r.data.splitOn '/').getLastD [])

/-- Error taxonomy raised by the validator and pagination plumbing:
`keyError` for Python `KeyError`, `valueError` for the three distinct
`ValueError`s of `validate_command_for_schema` / `validate_attrs_in_schema`
(category, schema title, offending field list — the message string is
`f"... not found in {title} type: {','.join(fields)}"`), `attributeError`
for `clean_dict` failing on malformed collections. -/
inductive ErrCat : Type where
  | setAttrs
  | unknownAttrs
  | incrNotInt
  deriving DecidableEq

inductive PyErr : Type where
  | keyError : String → PyErr
  | valueError : ErrCat → String → List String → PyErr
  | attributeError : PyErr
  deriving DecidableEq

/-- `validate_attrs_in_schema` (utils.py 307-315). -/
def validate_attrs_in_schema (schema : Schema) (attrs : List String) :
    Except PyErr Unit :=
  let invalid_keys := attrs.filter (fun a => (alookup a schema.properties).isNone)
  if invalid_keys.length > 0 then
    .error (.valueError .unknownAttrs schema.title invalid_keys)
  else .ok ()

/-- The `set_commands` loop of `validate_command_for_schema`
(utils.py 255-270), accumulating `set_error_keys`; a `$ref` that does not
resolve in `definitions` is a Python `KeyError`. -/
def collectSetErrors (schema : Schema) :
    List (String × PyVal) → Except PyErr (List String)
  | [] => .ok []
  | (k, v) :: rest =>
      match alookup k schema.properties with
      | none => (collectSetErrors schema rest).map (k :: ·)
      | some prop =>
          match v with
          | .dict d =>
              match prop.ref with
              | some r =>
                  match alookup (refName r) schema.definitions with
                  | none => .error (.keyError (refName r))
                  | some nested_props =>
                      let errs := ((d.entries.map Prod.fst).filter
                        (fun nk => (alookup nk nested_props).isNone)).map
                        (fun nk => k ++ "." ++ nk)
                      (collectSetErrors schema rest).map (errs ++ ·)
              | none =>
                  match prop.type with
                  | none => .error (.keyError "type")
                  | some t =>
                      if t ≠ "object" then
                        (collectSetErrors schema rest).map (k :: ·)
                      else collectSetErrors schema rest
          | _ => collectSetErrors schema rest

/-- The increment-type loop of `validate_command_for_schema`
(utils.py 287-291): `schema_props[k]` then `prop.get("type") != "integer"`. -/
def collectIncrErrors (schema : Schema) : List String → Except PyErr (List String)
  | [] => .ok []
  | k :: rest =>
      match alookup k schema.properties with
      | none => .error (.keyError k)
      | some prop =>
          if prop.type ≠ some "integer" then
            (collectIncrErrors schema rest).map (k :: ·)
          else collectIncrErrors schema rest

/-- `validate_command_for_schema` (utils.py 252-297). -/
def validate_command_for_schema (schema : Schema) (command : UpdateCommand) :
    Except PyErr Unit := do
  let set_error_keys ← collectSetErrors schema command.set_commands
  if set_error_keys.length > 0 then
    throw (.valueError .setAttrs schema.title set_error_keys)
  let increment_attrs := command.increment_attrs.map Prod.fst
  validate_attrs_in_schema schema
    (increment_attrs ++ command.append_attrs.map Prod.fst)
  let incr_error_keys ← collectIncrErrors schema increment_attrs
  if incr_error_keys.length > 0 then
    throw (.valueError .incrNotInt schema.title incr_error_keys)
  return ()

/-- `validate_filters_for_schema` (utils.py 300-304). -/
def validate_filters_for_schema (schema : Schema) (filters : FilterCommand) :
    Except PyErr Unit :=
  validate_attrs_in_schema schema
    (filters.not_exists ++ filters.equals.map Prod.fst
      ++ filters.not_equals.map Prod.fst)

/-! Specification-side descriptions of the validator's violation categories,
written from the claim's wording ("unknown set keys, unknown nested set
keys, unknown increment or append keys, or increment keys not declared
integer"), for the amended aggregate-completeness statement. -/

/-- The set-command violations of a command against a schema: unknown
top-level keys, dotted unknown nested keys under a `$ref` property, and
nested maps against a non-object scalar property. -/
def specSetViolations (schema : Schema) (cmds : List (String × PyVal)) :
    List String :=
  cmds.flatMap (fun kv =>
    match alookup kv.1 schema.properties with
    | none => [kv.1]
    | some prop =>
        match kv.2 with
        | .dict d =>
            match prop.ref with
            | some r =>
                ((d.entries.map Prod.fst).filter (fun nk =>
                  (alookup nk ((alookup (refName r) schema.definitions).getD [])).isNone)).map
                  (fun nk => kv.1 ++ "." ++ nk)
            | none => if prop.type = some "object" then [] else [kv.1]
        | _ => [])

/-- The increment/append keys absent from the schema, in the order the code
checks them. -/
def specUnknownAttrs (schema : Schema) (command : UpdateCommand) : List String :=
  (command.increment_attrs.map Prod.fst
    ++ command.append_attrs.map Prod.fst).filter
    (fun a => (alookup a schema.properties).isNone)

/-- The increment keys whose declared type is not `integer`. -/
def specNonIntIncrs (schema : Schema) (command : UpdateCommand) : List String :=
  (command.increment_attrs.map Prod.fst).filter (fun k =>
    ¬((alookup k schema.properties).elim false (fun p => p.type = some "integer")))

/-- Schema/command well-formedness ruling out the validator's `KeyError`
paths: every nested set target's property resolves its `$ref` in
`definitions`, or has a declared `"type"`. -/
def schemaWFFor (schema : Schema) (cmds : List (String × PyVal)) : Bool :=
  cmds.all (fun kv =>
    match alookup kv.1 schema.properties with
    | none => true
    | some prop =>
        match kv.2 with
        | .dict _ =>
            match prop.ref with
            | some r => (alookup (refName r) schema.definitions).isSome
            | none => prop.type.isSome
        | _ => true)

/-! ## ExpressionCompiler: build_update_args_for_command (utils.py 103-201)

The update expression is modelled at clause level with the `#attN`/`:valN`
alias indirection resolved: each loop iteration of the source writes exactly
one clause into the `SET`-joined expression string, records the target field
in `names` and the assigned value in `values`; a `Clause` below carries that
(field, value) pair directly.  The reserved `:zero` / `:empty_list` value
aliases are fixed bookkeeping (`0` and `[]`) shared by the `if_not_exists`
forms and are not clause data. -/

inductive Clause : Type where
  | setTop : String → PyVal → Clause
  | setNested : String → String → PyVal → Clause
  | incr : String → Int → Clause
  | append : String → PyVal → Clause
  deriving DecidableEq

/-- The mutations `build_update_args_for_command` performs on
`command.set_commands` before compiling (utils.py 107-111): inject the
timestamp under `INTERNAL_TIMESTAMP_KEY`, inject the TTL epoch under
`INTERNAL_TTL` when `expiry` is set, then pop `INTERNAL_OBJECT_VERSION`. -/
def mutatedSetCommands (command : UpdateCommand) (nowIso : String) :
    List (String × PyVal) :=
  apop INTERNAL_OBJECT_VERSION
    (match command.expiry with
     | some ts =>
         aset INTERNAL_TTL (.pint ts)
           (aset INTERNAL_TIMESTAMP_KEY (.pdate nowIso) command.set_commands)
     | none => aset INTERNAL_TIMESTAMP_KEY (.pdate nowIso) command.set_commands)

/-- The mutations on `command.increment_attrs` (utils.py 150-152):
`add_attrs.update(**{INTERNAL_OBJECT_VERSION: 1})` then pop the timestamp. -/
def mutatedIncrementAttrs (command : UpdateCommand) : List (String × Int) :=
  apop INTERNAL_TIMESTAMP_KEY (aset INTERNAL_OBJECT_VERSION 1 command.increment_attrs)

/-- The mutations on `command.append_attrs` (utils.py 167-169). -/
def mutatedAppendAttrs (command : UpdateCommand) : List (String × Option PyList) :=
  apop INTERNAL_OBJECT_VERSION (apop INTERNAL_TIMESTAMP_KEY command.append_attrs)

/-- The command object as the caller observes it after
`build_update_args_for_command` returns: the dict mutations above act on the
caller's own dictionaries. -/
def mutatedCommand (command : UpdateCommand) (nowIso : String) : UpdateCommand :=
  { command with
      set_commands := mutatedSetCommands command nowIso
      increment_attrs := mutatedIncrementAttrs command
      append_attrs := mutatedAppendAttrs command }

/-- `SET` clauses (utils.py 120-148): a dict-valued entry emits one
`#base.#prop = :val` clause per inner key; any other value emits one
`#att = :val` clause. -/
def setClausesOf (set_attrs : List (String × PyVal)) : List Clause :=
  set_attrs.flatMap (fun kv =>
    match kv.2 with
    | .dict d => d.entries.map (fun skv => .setNested kv.1 skv.1 skv.2)
    | v => [.setTop kv.1 v])

/-- Increment clauses (utils.py 154-165):
`#att = if_not_exists(#att, :zero) + :val`. -/
def incrClausesOf (add_attrs : List (String × Int)) : List Clause :=
  add_attrs.map (fun kv => .incr kv.1 kv.2)

/-- Append clauses (utils.py 171-185):
`#att = list_append(if_not_exists(#att, :empty_list), :val)` with a `None`
value coerced to the literal `1`. -/
def appendClausesOf (append_attrs : List (String × Option PyList)) : List Clause :=
  append_attrs.map (fun kv =>
    .append kv.1 (match kv.2 with | none => .pint 1 | some l => .plist l))

/-- `clean_dict(values)` (utils.py 188) applied to one value-table entry.
Increment values are Python ints, unchanged by `clean_value`. -/
def cleanClause : Clause → Option Clause
  | .setTop k v => (cleanEntry v).map (.setTop k)
  | .setNested b p v => (cleanEntry v).map (.setNested b p)
  | .incr k n => some (.incr k n)
  | .append k v => (cleanEntry v).map (.append k)

structure UpdateItemArguments where
  clauses : List Clause
  condition_expression : Option Cond
  deriving DecidableEq

/-- `build_update_args_for_command` (utils.py 103-201), returning both the
compiled arguments (`none` when `clean_dict` raises on the value table) and
the caller's command object as mutated by the call. -/
def build_update_args_for_command (command : UpdateCommand)
    (key : Option (List (String × String))) (nowIso : String) :
    Option UpdateItemArguments × UpdateCommand :=
  let set_attrs := mutatedSetCommands command nowIso
  let add_attrs := mutatedIncrementAttrs command
  let append_attrs := mutatedAppendAttrs command
  let clauses := setClausesOf set_attrs ++ incrClausesOf add_attrs
    ++ appendClausesOf append_attrs
  let condition := build_update_condition command key
  ((clauses.mapM cleanClause).map (fun cs =>
      { clauses := cs, condition_expression := condition }),
   mutatedCommand command nowIso)

/-- Is this the version-counter increment clause the repository injects? -/
def isVersionIncr : Clause → Bool
  | .incr k _ => k == INTERNAL_OBJECT_VERSION
  | _ => false

/-- Does the clause write the given field as a `SET` target (top-level or
as the base of a nested path)? -/
def setsField (f : String) : Clause → Bool
  | .setTop k _ => k == f
  | .setNested b _ _ => b == f
  | _ => false

/-- Does the clause increment or append to the given field? -/
def incrOrAppendsField (f : String) : Clause → Bool
  | .incr k _ => k == f
  | .append k _ => k == f
  | _ => false

/-! ## execute_update_item (utils.py 25-28, 47-64) -/

/-- A raised store exception: `withResponse code` models an exception with a
`.response` attribute holding `{"Error": {"Code": code?}}`; `plain` one
without a `.response`. -/
inductive PyExc : Type where
  | withResponse : Option String → PyExc
  | plain : PyExc
  deriving DecidableEq

/-- `get_error_code` (utils.py 25-28). -/
def get_error_code : PyExc → Option String
  | .withResponse c => c
  | .plain => none

/-- The observable outcome of `execute_update_item`: normal return, the
translated `RequestObjectStateError` carrying the failed key (raised `from`
the original exception), or the original exception re-raised. -/
inductive UpdateOutcome : Type where
  | ok : UpdateOutcome
  | requestObjectStateError : List (String × String) → PyExc → UpdateOutcome
  | reraised : PyExc → UpdateOutcome
  deriving DecidableEq

/-- `execute_update_item` (utils.py 47-64); the store's `update_item` call is
abstracted as its result, `Except` error being the exception it raises. -/
def execute_update_item (key : List (String × String))
    (storeCall : Except PyExc Unit) : UpdateOutcome :=
  match storeCall with
  | .ok _ => .ok
  | .error ex =>
      if get_error_code ex = some "ConditionalCheckFailedException" then
        .requestObjectStateError key ex
      else .reraised ex

/-! ## Batch get (utils.py 31-34 chunks; v2/repository.py 145-191 get_batch;
repository.py 204-245 is the same request loop) -/

/-- The loop of `chunks`: `range(0, len(items), size)` makes
`ceil(len/size)` iterations, the i-th yielding `items[i*size : (i+1)*size]`,
i.e. `take size` of the list with the previous chunks dropped. -/
def chunksN (size : Nat) (l : List α) : Nat → List (List α)
  | 0 => []
  | n + 1 => l.take size :: chunksN size (l.drop size) n

/-- `chunks` (utils.py 31-34):
`for i in range(0, len(items), size): yield items[i : i + size]`.
`size` is the constant 100 at every call site (`size = 0` would raise in
Python's `range`). -/
def chunks (items : List α) (size : Nat) : List (List α) :=
  chunksN size items ((items.length + size - 1) / size)

/-- One `batch_get_item` response: the found items under
`Responses[table_name]` and the `UnprocessedKeys` list (falsy when empty). -/
structure BatchResp (κ ι : Type) where
  found : List ι
  unprocessed : List κ

/-- The `while unprocessed_keys := batch_response.get("UnprocessedKeys")`
loop of `get_batch`, recorded as the list of follow-up requests it issues,
given the response to the previous request; `none` when `fuel` runs out
before the store returns an empty unprocessed set. -/
def unprocessedCalls (store : List κ → BatchResp κ ι) :
    BatchResp κ ι → Nat → Option (List (List κ))
  | resp, 0 => if resp.unprocessed.isEmpty then some [] else none
  | resp, fuel + 1 =>
      if resp.unprocessed.isEmpty then some []
      else (unprocessedCalls store (store resp.unprocessed) fuel).map
        (resp.unprocessed :: ·)

/-- The requests issued for one 100-key chunk: the chunk itself, then the
unprocessed-keys follow-ups. -/
def chunkCalls (store : List κ → BatchResp κ ι) (chunk : List κ) (fuel : Nat) :
    Option (List (List κ)) :=
  (unprocessedCalls store (store chunk) fuel).map (chunk :: ·)

/-- `get_batch` as its trace of `batch_get_item` request key-lists, grouped
by originating chunk.  The keys sent are the composed key dicts of the
requested id pairs, abstracted here to an opaque key type `κ` (the
composition is injective bookkeeping shared by every call). -/
def get_batch_calls (store : List κ → BatchResp κ ι) (request_ids : List κ)
    (fuel : Nat) : Option (List (List (List κ))) :=
  (chunks request_ids 100).mapM (fun c => chunkCalls store c fuel)

/-- Specification-side reissue protocol, from the claim's wording: each
follow-up request asks exactly the previous response's unprocessed keys,
requests stop exactly when that set is empty. -/
def reissueChain [DecidableEq κ] (store : List κ → BatchResp κ ι) :
    List (List κ) → Bool
  | [] => false
  | [c] => (store c).unprocessed.isEmpty
  | c :: c2 :: rest =>
      decide ((store c).unprocessed = c2) && !c2.isEmpty
        && reissueChain store (c2 :: rest)

/-! ## PaginationEngine: _query_all_data (v2/repository.py 334-385;
repository.py 360-398 is identical modulo flattening) -/

/-- The key condition of a query: partition equality with sort-key
`begins_with` (list/delete) or `between` (list_between). -/
inductive KeyCondExpr : Type where
  | prefixMatch : String → PyStr → String → PyStr → KeyCondExpr
  | between : String → PyStr → String → PyStr → PyStr → KeyCondExpr
  deriving DecidableEq

/-- Python truthiness of the `limit : Optional[int]` parameter. -/
def truthyLimit : Option Nat → Bool
  | none => false
  | some n => n != 0

/-- The query keyword arguments assembled at v2/repository.py 342-351:
`FilterExpression` is attached iff `filters` is supplied and compiles
non-empty; `Limit` is attached iff `limit` is truthy and no
`FilterExpression` was attached. -/
structure QueryKwargs : Type where
  keyCondition : KeyCondExpr
  scanIndexForward : Bool
  filterExpr : Option Cond
  limit : Option Nat
  deriving DecidableEq

def build_query_kwargs (schema : Schema) (keyCond : KeyCondExpr) (asc : Bool)
    (limit : Option Nat) (filters : Option FilterCommand) :
    Except PyErr QueryKwargs := do
  let fe ← match filters with
    | none => pure none
    | some f =>
        match validate_filters_for_schema schema f with
        | .error e => throw e
        | .ok _ =>
            match build_filter_expression f with
            | none => throw .attributeError
            | some fe => pure fe
  let lim := if truthyLimit limit && fe.isNone then limit else none
  return { keyCondition := keyCond, scanIndexForward := asc,
           filterExpr := fe, limit := lim }

/-- One page returned by `table.query`: `Count`, `Items`,
`LastEvaluatedKey`. -/
structure QueryPage (χ ι : Type) where
  count : Nat
  items : List ι
  lastEvaluatedKey : Option χ

/-- The `while last_evaluated_key := response.get(LAST_EVALUATED_KEY)` loop
(v2/repository.py 370-384): stop on absent cursor; then
`if limit and total_count >= limit: return`; otherwise re-query with
`ExclusiveStartKey` and yield the next page.  `fuel` bounds the number of
follow-up requests (the Python generator may otherwise be unbounded). -/
def query_loop (store : QueryKwargs → Option χ → QueryPage χ ι)
    (kwargs : QueryKwargs) (limit : Option Nat) :
    QueryPage χ ι → Nat → Nat → List (List ι)
  | _, _, 0 => []
  | prev, total_count, fuel + 1 =>
      match prev.lastEvaluatedKey with
      | none => []
      | some lek =>
          if truthyLimit limit && decide (limit.getD 0 ≤ total_count) then []
          else
            let response := store kwargs (some lek)
            response.items ::
              query_loop store kwargs limit response (total_count + response.count) fuel

/-- `_query_all_data` as the list of yielded pages. -/
def query_all_data (store : QueryKwargs → Option χ → QueryPage χ ι)
    (schema : Schema) (keyCond : KeyCondExpr) (asc : Bool)
    (limit : Option Nat) (filters : Option FilterCommand) (fuel : Nat) :
    Except PyErr (List (List ι)) := do
  let kwargs ← build_query_kwargs schema keyCond asc limit filters
  let response := store kwargs none
  return response.items ::
    query_loop store kwargs limit response response.count fuel

/-- Specification-side page chain: the page the store returns for the i-th
request of one `_query_all_data` run (first request with no
`ExclusiveStartKey`, each next with the previous page's cursor). -/
def pageAt (store : QueryKwargs → Option χ → QueryPage χ ι)
    (kwargs : QueryKwargs) : Nat → QueryPage χ ι
  | 0 => store kwargs none
  | i + 1 => store kwargs (pageAt store kwargs i).lastEvaluatedKey

/-- Running `total_count` after the pages 0..i were fetched. -/
def totalThrough (store : QueryKwargs → Option χ → QueryPage χ ι)
    (kwargs : QueryKwargs) : Nat → Nat
  | 0 => (pageAt store kwargs 0).count
  | i + 1 => totalThrough store kwargs i + (pageAt store kwargs (i + 1)).count

/-- The claim's stop condition, checked between yielding page i and issuing
request i+1: the cursor is absent, or the running count has reached the
truthy limit. -/
def stopAfter (store : QueryKwargs → Option χ → QueryPage χ ι)
    (kwargs : QueryKwargs) (limit : Option Nat) (i : Nat) : Bool :=
  (pageAt store kwargs i).lastEvaluatedKey.isNone
    || (truthyLimit limit && decide (limit.getD 0 ≤ totalThrough store kwargs i))

/-! ## Repository list / list_between (v2/repository.py 193-267;
repository.py 247-312 is identical modulo flattening) -/

/-- Per-entity repository configuration read by the list operations. -/
structure RepoConfig where
  partitionPfx : PyStr
  partitionName : PyStr
  contentType : PyStr
  partitionKeyAttr : String
  sortKeyAttr : String
  schema : Schema

/-- `list` (v2/repository.py 193-215): default the id lists, build the
eq-and-begins_with key condition, drive `_query_all_data`, and yield every
item of every page.  Item hydration (`_db_item_to_object`) is applied to
each raw item identically on every path and is left abstract in `ι`. -/
def listFn (cfg : RepoConfig) (store : QueryKwargs → Option χ → QueryPage χ ι)
    (fuel : Nat) (partitionIds contentPre : Option (List PyStr)) (asc : Bool)
    (limit : Option Nat) (filters : Option FilterCommand) :
    Except PyErr (List ι) :=
  let p := partitionIds.getD []
  let cp := contentPre.getD []
  let cond := KeyCondExpr.prefixMatch cfg.partitionKeyAttr
    (partition_id cfg.partitionPfx cfg.partitionName p)
    cfg.sortKeyAttr (content_id cfg.contentType cp)
  (query_all_data store cfg.schema cond asc limit filters fuel).map List.flatten

/-- `list_between` (v2/repository.py 217-267): when the defaulted
`content_start` equals `content_end` it defers to
`self.list(partition_id, content_start)` — the remaining arguments are the
defaults of `list` — otherwise it queries with a `between` condition. -/
def list_between (cfg : RepoConfig)
    (store : QueryKwargs → Option χ → QueryPage χ ι) (fuel : Nat)
    (partitionIds contentStart contentEnd : Option (List PyStr)) (asc : Bool)
    (limit : Option Nat) (filters : Option FilterCommand) :
    Except PyErr (List ι) :=
  let p := partitionIds.getD []
  let ss := contentStart.getD []
  let ee := contentEnd.getD []
  if ss = ee then listFn cfg store fuel (some p) (some ss) true none none
  else
    let cond := KeyCondExpr.between cfg.partitionKeyAttr
      (partition_id cfg.partitionPfx cfg.partitionName p)
      cfg.sortKeyAttr (content_id cfg.contentType ss) (content_id cfg.contentType ee)
    (query_all_data store cfg.schema cond asc limit filters fuel).map List.flatten

/-! ## Concrete data used by witnesses and counterexamples -/

/-- A small pydantic-style schema: a string field, an integer field, and a
nested model reference. -/
def exSchemaA : Schema :=
  { title := "Example"
    properties := [("f", { type := some "string" }),
                   ("count", { type := some "integer" }),
                   ("nested", { ref := some "#/definitions/Inner" })]
    definitions := [("Inner", [("x", { type := some "integer" })])] }

/-- A two-page store: first page holds item 10 with a cursor, the second
holds item 11 with a further cursor, later pages are empty and exhausted. -/
def exQStore : QueryKwargs → Option Nat → QueryPage Nat Nat :=
  fun _ c =>
    match c with
    | none => { count := 1, items := [10], lastEvaluatedKey := some 0 }
    | some 0 => { count := 1, items := [11], lastEvaluatedKey := some 1 }
    | some _ => { count := 0, items := [], lastEvaluatedKey := none }

/-- The kwargs `_query_all_data` builds for `exSchemaA`, a not-exists filter
on `f`, and limit 2: the filter expression is attached, so no store Limit. -/
def exKwargsA : QueryKwargs :=
  { keyCondition := .prefixMatch "pk" [] "sk" ['c']
    scanIndexForward := true
    filterExpr := some (.attrNotExists "f")
    limit := none }

def exFilterA : FilterCommand := { not_exists := ["f"] }

/-- A store whose answer depends on the page-size limit it is given:
with `Limit = 1` it returns one item, otherwise two. -/
def exLimitStore : QueryKwargs → Option Nat → QueryPage Nat Nat :=
  fun kw _ =>
    if kw.limit = some 1 then { count := 1, items := [100], lastEvaluatedKey := none }
    else { count := 2, items := [100, 200], lastEvaluatedKey := none }

def exCfg : RepoConfig :=
  { partitionPfx := ['p'], partitionName := ['n'], contentType := ['c']
    partitionKeyAttr := "pk", sortKeyAttr := "sk", schema := exSchemaA }

/-- A command referencing an unknown set key and an unknown increment key:
two invalid fields in different validator categories. -/
def exBadCmd : UpdateCommand :=
  { set_commands := [("bad1", .pint 1)], increment_attrs := [("bad2", 1)] }

/-- A command with one violation of each set-command kind: unknown key,
unknown nested key, nested map against a scalar property. -/
def exMultiBadCmd : UpdateCommand :=
  { set_commands := [("bad1", .pint 1),
                     ("nested", .dict (.cons "y" (.pint 0) .nil)),
                     ("f", .dict .nil)] }

/-- A command trying to write every protected internal field. -/
def exCmd4 : UpdateCommand :=
  { current_version := some 3
    set_commands := [(INTERNAL_OBJECT_VERSION, .pint 99), ("f", .pstr "v")]
    increment_attrs := [(INTERNAL_TIMESTAMP_KEY, 5), ("count", 2)]
    append_attrs := [("items", none), (INTERNAL_TIMESTAMP_KEY, some .nil)]
    expiry := some 1000 }

/-- A batch store: the full three-key request comes back with key 3
unprocessed, the follow-up for `[3]` completes. -/
def exBatchStore : List Nat → BatchResp Nat Nat :=
  fun ks =>
    if ks = [1, 2, 3] then { found := [], unprocessed := [3] }
    else { found := [], unprocessed := [] }

/-- A dirty nested dict whose enumeration members carry primitive values. -/
def exCleanD : PyObj :=
  .cons "a" (.penum (.pint 2))
    (.cons "b" (.dict (.cons "c" (.pdate "2020-01-01") .nil))
      (.cons "s" (.pset (.cons (.pdate "2021-01-01") .nil)) .nil))

/-- A dict holding an enumeration whose underlying value is a date: one
normalization pass exposes the date, a second turns it into a string. -/
def exEnumDateD : PyObj := .cons "k" (.penum (.pdate "2020-01-01")) .nil

/-! # Theorems -/

/-! ## ValueNormalizer idempotence (claim C8) -/

theorem clean_value_idem (v : PyVal) (h : enumOkV v = true) :
    clean_value (clean_value v) = clean_value v := by
  cases v <;> simp_all [clean_value, PyVal.isScalarPrim, enumOkV]
  case penum p => cases p <;> simp_all [clean_value]

theorem clean_value_not_dict_model (v : PyVal) (h : enumOkV v = true)
    (hd : v.isDict = false) (hm : v.isModel = false) :
    (clean_value v).isDict = false ∧ (clean_value v).isModel = false := by
  cases v <;> simp_all [clean_value, PyVal.isDict, PyVal.isModel, enumOkV, PyVal.isScalarPrim]
  case penum p => cases p <;> simp_all [PyVal.isDict, PyVal.isModel]

theorem cleanScalars_idem : (l : PyList) → enumOkL l = true →
    cleanScalars (cleanScalars l) = cleanScalars l
  | .nil, _ => by simp [cleanScalars]
  | .cons v rest, h => by
      simp only [enumOkL, Bool.and_eq_true] at h
      simp [cleanScalars, clean_value_idem v h.1, cleanScalars_idem rest h.2]

theorem cleanEntry_scalar_list (h0 : PyVal) (t : PyList)
    (hok : enumOkL (.cons h0 t) = true)
    (hd : h0.isDict = false) (hm : h0.isModel = false) :
    cleanEntry (.plist (cleanScalars (.cons h0 t)))
      = some (.plist (cleanScalars (.cons h0 t))) := by
  simp only [enumOkL, Bool.and_eq_true] at hok
  have hnd := clean_value_not_dict_model h0 hok.1 hd hm
  simp only [cleanScalars, cleanEntry, hnd.1, hnd.2, Bool.false_eq_true, if_false]
  simp [cleanScalars, clean_value_idem h0 hok.1, cleanScalars_idem t hok.2]

mutual
theorem clean_dict_idem : (d d' : PyObj) → enumOkO d = true →
    clean_dict d = some d' → clean_dict d' = some d'
  | .nil, d', _, h => by
      simp only [clean_dict, Option.some.injEq] at h
      subst h; simp [clean_dict]
  | .cons k v rest, d', hok, h => by
      simp only [enumOkO, Bool.and_eq_true] at hok
      simp only [clean_dict, bind, Option.pure_def, Option.bind_eq_some, Option.some.injEq] at h
      obtain ⟨v', hv, rest', hr, rfl⟩ := h
      have h1 := cleanEntry_idem v v' hok.1 hv
      have h2 := clean_dict_idem rest rest' hok.2 hr
      simp [clean_dict, bind, h1, h2]

theorem cleanEntry_idem : (v v' : PyVal) → enumOkV v = true →
    cleanEntry v = some v' → cleanEntry v' = some v'
  | .dict d, v', hok, h => by
      simp only [enumOkV] at hok
      simp only [cleanEntry, Option.map_eq_some'] at h
      obtain ⟨d', hd, rfl⟩ := h
      have := clean_dict_idem d d' hok hd
      simp [cleanEntry, this]
  | .model d, v', hok, h => by
      simp only [enumOkV] at hok
      simp only [cleanEntry, Option.map_eq_some'] at h
      obtain ⟨d', hd, rfl⟩ := h
      have := clean_dict_idem d d' hok hd
      simp [cleanEntry, this]
  | .plist .nil, v', _, h => by
      simp only [cleanEntry, Option.some.injEq] at h
      subst h; simp [cleanEntry]
  | .pset .nil, v', _, h => by
      simp only [cleanEntry, Option.some.injEq] at h
      subst h; simp [cleanEntry]
  | .plist (.cons h0 t), v', hok, h => by
      simp only [enumOkV] at hok
      cases h0 with
      | dict d0 =>
          simp only [cleanEntry, PyVal.isDict, if_true, Option.map_eq_some'] at h
          obtain ⟨l', hl, rfl⟩ := h
          have hshape : ∃ d0' t', l' = .cons (.dict d0') t' := by
            simp only [cleanAllDicts, bind, Option.pure_def, Option.bind_eq_some, Option.some.injEq] at hl
            obtain ⟨d0', _, t', _, hh⟩ := hl
            exact ⟨d0', t', hh.symm⟩
          obtain ⟨d0', t', rfl⟩ := hshape
          have hidem := cleanAllDicts_idem (.cons (.dict d0) t) (.cons (.dict d0') t') hok hl
          simp [cleanEntry, PyVal.isDict, hidem]
      | model d0 =>
          simp only [cleanEntry, PyVal.isDict, PyVal.isModel, Bool.false_eq_true, if_false,
            if_true, Option.map_eq_some'] at h
          obtain ⟨l', hl, rfl⟩ := h
          have hshape : ∃ d0' t', l' = .cons (.dict d0') t' := by
            simp only [cleanAllModels, bind, Option.pure_def, Option.bind_eq_some, Option.some.injEq] at hl
            obtain ⟨d0', _, t', _, hh⟩ := hl
            exact ⟨d0', t', hh.symm⟩
          obtain ⟨d0', t', rfl⟩ := hshape
          have hidem := cleanAllModels_then_dicts (.cons (.model d0) t) (.cons (.dict d0') t') hok hl
          simp [cleanEntry, PyVal.isDict, hidem]
      | pint n =>
          simp only [cleanEntry, PyVal.isDict, PyVal.isModel, Bool.false_eq_true, if_false,
            Option.some.injEq] at h
          subst h
          exact cleanEntry_scalar_list _ _ hok (by simp [PyVal.isDict]) (by simp [PyVal.isModel])
      | pstr s =>
          simp only [cleanEntry, PyVal.isDict, PyVal.isModel, Bool.false_eq_true, if_false,
            Option.some.injEq] at h
          subst h
          exact cleanEntry_scalar_list _ _ hok (by simp [PyVal.isDict]) (by simp [PyVal.isModel])
      | pnone =>
          simp only [cleanEntry, PyVal.isDict, PyVal.isModel, Bool.false_eq_true, if_false,
            Option.some.injEq] at h
          subst h
          exact cleanEntry_scalar_list _ _ hok (by simp [PyVal.isDict]) (by simp [PyVal.isModel])
      | pdate s =>
          simp only [cleanEntry, PyVal.isDict, PyVal.isModel, Bool.false_eq_true, if_false,
            Option.some.injEq] at h
          subst h
          exact cleanEntry_scalar_list _ _ hok (by simp [PyVal.isDict]) (by simp [PyVal.isModel])
      | penum p =>
          simp only [cleanEntry, PyVal.isDict, PyVal.isModel, Bool.false_eq_true, if_false,
            Option.some.injEq] at h
          subst h
          exact cleanEntry_scalar_list _ _ hok (by simp [PyVal.isDict]) (by simp [PyVal.isModel])
      | plist l0 =>
          simp only [cleanEntry, PyVal.isDict, PyVal.isModel, Bool.false_eq_true, if_false,
            Option.some.injEq] at h
          subst h
          exact cleanEntry_scalar_list _ _ hok (by simp [PyVal.isDict]) (by simp [PyVal.isModel])
      | pset l0 =>
          simp only [cleanEntry, PyVal.isDict, PyVal.isModel, Bool.false_eq_true, if_false,
            Option.some.injEq] at h
          subst h
          exact cleanEntry_scalar_list _ _ hok (by simp [PyVal.isDict]) (by simp [PyVal.isModel])
  | .pset (.cons h0 t), v', hok, h => by
      simp only [enumOkV] at hok
      cases h0 with
      | dict d0 =>
          simp only [cleanEntry, PyVal.isDict, if_true, Option.map_eq_some'] at h
          obtain ⟨l', hl, rfl⟩ := h
          have hshape : ∃ d0' t', l' = .cons (.dict d0') t' := by
            simp only [cleanAllDicts, bind, Option.pure_def, Option.bind_eq_some, Option.some.injEq] at hl
            obtain ⟨d0', _, t', _, hh⟩ := hl
            exact ⟨d0', t', hh.symm⟩
          obtain ⟨d0', t', rfl⟩ := hshape
          have hidem := cleanAllDicts_idem (.cons (.dict d0) t) (.cons (.dict d0') t') hok hl
          simp [cleanEntry, PyVal.isDict, hidem]
      | model d0 =>
          simp only [cleanEntry, PyVal.isDict, PyVal.isModel, Bool.false_eq_true, if_false,
            if_true, Option.map_eq_some'] at h
          obtain ⟨l', hl, rfl⟩ := h
          have hshape : ∃ d0' t', l' = .cons (.dict d0') t' := by
            simp only [cleanAllModels, bind, Option.pure_def, Option.bind_eq_some, Option.some.injEq] at hl
            obtain ⟨d0', _, t', _, hh⟩ := hl
            exact ⟨d0', t', hh.symm⟩
          obtain ⟨d0', t', rfl⟩ := hshape
          have hidem := cleanAllModels_then_dicts (.cons (.model d0) t) (.cons (.dict d0') t') hok hl
          simp [cleanEntry, PyVal.isDict, hidem]
      | pint n =>
          simp only [cleanEntry, PyVal.isDict, PyVal.isModel, Bool.false_eq_true, if_false,
            Option.some.injEq] at h
          subst h
          exact cleanEntry_scalar_list _ _ hok (by simp [PyVal.isDict]) (by simp [PyVal.isModel])
      | pstr s =>
          simp only [cleanEntry, PyVal.isDict, PyVal.isModel, Bool.false_eq_true, if_false,
            Option.some.injEq] at h
          subst h
          exact cleanEntry_scalar_list _ _ hok (by simp [PyVal.isDict]) (by simp [PyVal.isModel])
      | pnone =>
          simp only [cleanEntry, PyVal.isDict, PyVal.isModel, Bool.false_eq_true, if_false,
            Option.some.injEq] at h
          subst h
          exact cleanEntry_scalar_list _ _ hok (by simp [PyVal.isDict]) (by simp [PyVal.isModel])
      | pdate s =>
          simp only [cleanEntry, PyVal.isDict, PyVal.isModel, Bool.false_eq_true, if_false,
            Option.some.injEq] at h
          subst h
          exact cleanEntry_scalar_list _ _ hok (by simp [PyVal.isDict]) (by simp [PyVal.isModel])
      | penum p =>
          simp only [cleanEntry, PyVal.isDict, PyVal.isModel, Bool.false_eq_true, if_false,
            Option.some.injEq] at h
          subst h
          exact cleanEntry_scalar_list _ _ hok (by simp [PyVal.isDict]) (by simp [PyVal.isModel])
      | plist l0 =>
          simp only [cleanEntry, PyVal.isDict, PyVal.isModel, Bool.false_eq_true, if_false,
            Option.some.injEq] at h
          subst h
          exact cleanEntry_scalar_list _ _ hok (by simp [PyVal.isDict]) (by simp [PyVal.isModel])
      | pset l0 =>
          simp only [cleanEntry, PyVal.isDict, PyVal.isModel, Bool.false_eq_true, if_false,
            Option.some.injEq] at h
          subst h
          exact cleanEntry_scalar_list _ _ hok (by simp [PyVal.isDict]) (by simp [PyVal.isModel])
  | .pint n, v', hok, h => by
      simp only [cleanEntry, clean_value, Option.some.injEq] at h
      subst h; simp [cleanEntry, clean_value]
  | .pstr s, v', hok, h => by
      simp only [cleanEntry, clean_value, Option.some.injEq] at h
      subst h; simp [cleanEntry, clean_value]
  | .pnone, v', hok, h => by
      simp only [cleanEntry, clean_value, Option.some.injEq] at h
      subst h; simp [cleanEntry, clean_value]
  | .pdate s, v', hok, h => by
      simp only [cleanEntry, clean_value, Option.some.injEq] at h
      subst h; simp [cleanEntry, clean_value]
  | .penum p, v', hok, h => by
      simp only [enumOkV] at hok
      simp only [cleanEntry, clean_value, Option.some.injEq] at h
      subst h
      cases p <;> simp_all [PyVal.isScalarPrim, cleanEntry, clean_value]

theorem cleanAllDicts_idem : (l l' : PyList) → enumOkL l = true →
    cleanAllDicts l = some l' → cleanAllDicts l' = some l'
  | .nil, l', _, h => by
      simp only [cleanAllDicts, Option.some.injEq] at h
      subst h; simp [cleanAllDicts]
  | .cons v rest, l', hok, h => by
      simp only [enumOkL, Bool.and_eq_true] at hok
      cases v with
      | dict d =>
          simp only [cleanAllDicts, bind, Option.pure_def, Option.bind_eq_some, Option.some.injEq] at h
          obtain ⟨d', hd, rest', hr, rfl⟩ := h
          have hok1 : enumOkO d = true := by simpa [enumOkV] using hok.1
          have h1 := clean_dict_idem d d' hok1 hd
          have h2 := cleanAllDicts_idem rest rest' hok.2 hr
          simp [cleanAllDicts, bind, h1, h2]
      | pint n => simp [cleanAllDicts] at h
      | pstr s => simp [cleanAllDicts] at h
      | pnone => simp [cleanAllDicts] at h
      | pdate s => simp [cleanAllDicts] at h
      | penum p => simp [cleanAllDicts] at h
      | model d => simp [cleanAllDicts] at h
      | plist l0 => simp [cleanAllDicts] at h
      | pset l0 => simp [cleanAllDicts] at h

theorem cleanAllModels_then_dicts : (l l' : PyList) → enumOkL l = true →
    cleanAllModels l = some l' → cleanAllDicts l' = some l'
  | .nil, l', _, h => by
      simp only [cleanAllModels, Option.some.injEq] at h
      subst h; simp [cleanAllDicts]
  | .cons v rest, l', hok, h => by
      simp only [enumOkL, Bool.and_eq_true] at hok
      cases v with
      | model d =>
          simp only [cleanAllModels, bind, Option.pure_def, Option.bind_eq_some, Option.some.injEq] at h
          obtain ⟨d', hd, rest', hr, rfl⟩ := h
          have hok1 : enumOkO d = true := by simpa [enumOkV] using hok.1
          have h1 := clean_dict_idem d d' hok1 hd
          have h2 := cleanAllModels_then_dicts rest rest' hok.2 hr
          simp [cleanAllDicts, bind, h1, h2]
      | pint n => simp [cleanAllModels] at h
      | pstr s => simp [cleanAllModels] at h
      | pnone => simp [cleanAllModels] at h
      | pdate s => simp [cleanAllModels] at h
      | penum p => simp [cleanAllModels] at h
      | dict d => simp [cleanAllModels] at h
      | plist l0 => simp [cleanAllModels] at h
      | pset l0 => simp [cleanAllModels] at h
end

/-- C8 counterexample: `clean_dict` is not idempotent on a dict holding an
enumeration whose underlying value is a date — the first pass exposes the
raw date, the second converts it to its ISO string. -/
theorem claim8_counterexample :
    (clean_dict exEnumDateD).bind clean_dict ≠ clean_dict exEnumDateD := by
  decide

/-- C8 (amended): the value normalizer is idempotent on every nested
structure built from maps, lists, sets, enumerations, temporal values and
nested records, provided each enumeration's underlying value is a
store-primitive scalar: normalizing twice equals normalizing once. -/
theorem claim8_clean_dict_idempotent (d : PyObj) (h : enumOkO d = true) :
    (clean_dict d).bind clean_dict = clean_dict d := by
  cases hd : clean_dict d with
  | none => rfl
  | some d2 => simpa [hd] using clean_dict_idem d d2 h hd

/-- C8 witness: the idempotence theorem applied to a concrete dirty nested
structure. -/
theorem claim8_witness :
    enumOkO exCleanD = true
      ∧ (clean_dict exCleanD).bind clean_dict = clean_dict exCleanD :=
  ⟨by decide, claim8_clean_dict_idempotent exCleanD (by decide)⟩

/-! ## IdentifierCodec round-trip (claim C7) -/

theorem replaceFirst_of_isPrefixOf (pat s : PyStr) (h : pat.isPrefixOf s = true) :
    replaceFirst pat s = s.drop pat.length := by
  cases s with
  | nil =>
      cases pat with
      | nil => rfl
      | cons c cs => simp [List.isPrefixOf] at h
  | cons c rest => simp [replaceFirst, h]

theorem replaceFirst_append (pat rest : PyStr) :
    replaceFirst pat (pat ++ rest) = rest := by
  rw [replaceFirst_of_isPrefixOf]
  · exact List.drop_left pat rest
  · rw [List.isPrefixOf_iff_prefix]
    exact List.prefix_append pat rest

theorem partition_id_append (pfx name : PyStr) (S : List PyStr) :
    partition_id pfx name S = partition_id pfx name [] ++ List.intercalate ['#'] S := by
  simp [partition_id, List.intercalate]

/-- C7 counterexample: the round-trip fails as soon as a segment contains
the `#` separator — composing `["a#b"]` and parsing back yields
`["a", "b"]`. -/
theorem claim7_counterexample :
    parse_partition_ids ['p'] ['n'] (partition_id ['p'] ['n'] [['a', '#', 'b']])
        = [['a'], ['b']]
      ∧ [['a'], ['b']] ≠ [['a', '#', 'b']] := by
  constructor
  · rfl
  · decide

/-- C7 (amended): for every non-empty segment list none of whose segments
contains the `#` separator, parsing the composed partition key (stripping
the known `prefix#name#` once, splitting on `#`) returns exactly the
original segments. -/
theorem claim7_key_roundtrip (pfx name : PyStr) (S : List PyStr)
    (hne : S ≠ []) (hsep : ∀ s ∈ S, '#' ∉ s) :
    parse_partition_ids pfx name (partition_id pfx name S) = S := by
  unfold parse_partition_ids
  rw [partition_id_append pfx name S, replaceFirst_append]
  exact List.splitOn_intercalate S '#' hsep hne

/-- C7 witness: the round-trip theorem applied to the segments
`["a", "b"]`. -/
theorem claim7_witness :
    parse_partition_ids ['p'] ['n'] (partition_id ['p'] ['n'] [['a'], ['b']])
      = [['a'], ['b']] :=
  claim7_key_roundtrip ['p'] ['n'] [['a'], ['b']] (by decide) (by decide)

/-! ## Update precondition (claim C9) -/

theorem condAnd_elim_leaves (acc : Option Cond) (c : Cond) (hc : c.leaves = [c]) :
    (condAnd acc c).elim [] Cond.leaves = acc.elim [] Cond.leaves ++ [c] := by
  cases acc with
  | none => simpa [condAnd] using hc
  | some c0 => simp [condAnd, Cond.leaves, hc]

theorem condAnd_foldl_leaves (f : β → Cond) (hf : ∀ b, (f b).leaves = [f b]) :
    ∀ (l : List β) (acc : Option Cond),
      (l.foldl (fun a b => condAnd a (f b)) acc).elim [] Cond.leaves
        = acc.elim [] Cond.leaves ++ l.map f
  | [], acc => by simp
  | b :: rest, acc => by
      rw [List.foldl_cons, condAnd_foldl_leaves f hf rest (condAnd acc (f b)),
        condAnd_elim_leaves acc (f b) (hf b)]
      simp

theorem condAnd_foldl_some (f : β → Cond) :
    ∀ (l : List β) (c : Cond),
      ∃ c', l.foldl (fun a b => condAnd a (f b)) (some c) = some c'
  | [], c => ⟨c, rfl⟩
  | b :: rest, c => by
      simpa only [List.foldl_cons, condAnd] using condAnd_foldl_some f rest (.and c (f b))

theorem condAnd_foldl_none_iff (f : β → Cond) :
    ∀ (l : List β), (l.foldl (fun a b => condAnd a (f b)) none = none) ↔ l = []
  | [] => by simp
  | b :: rest => by
      rw [List.foldl_cons, show condAnd none (f b) = some (f b) from rfl]
      obtain ⟨c', hc⟩ := condAnd_foldl_some f rest (f b)
      simp [hc]

theorem truthyVersion_eq_false_iff (v : Option Int) :
    truthyVersion v = false ↔ v = none ∨ v = some 0 := by
  cases v with
  | none => simp [truthyVersion]
  | some x => simp [truthyVersion]

/-- C9: the compiled update precondition contains, as its AND-leaves, one
equality clause per existence-key field followed by a version-counter
equality exactly when `current_version` is truthy (non-None, non-zero); it
is absent precisely when there are no key fields and `current_version` is
`None` or `0`. -/
theorem claim9_build_update_condition (command : UpdateCommand)
    (key : Option (List (String × String))) :
    ((build_update_condition command key).elim [] Cond.leaves
        = (key.getD []).map (fun kv => Cond.attrEq kv.1 (.s kv.2))
          ++ (if truthyVersion command.current_version then
                [Cond.attrEq INTERNAL_OBJECT_VERSION
                  (.i (command.current_version.getD 0))]
              else []))
      ∧ (build_update_condition command key = none
          ↔ key.getD [] = []
            ∧ (command.current_version = none ∨ command.current_version = some 0)) := by
  have hleaf : ∀ kv : String × String,
      (Cond.attrEq kv.1 (.s kv.2)).leaves = [Cond.attrEq kv.1 (.s kv.2)] :=
    fun _ => rfl
  unfold build_update_condition
  cases htr : truthyVersion command.current_version with
  | false =>
      simp only [htr, Bool.false_eq_true, if_false]
      constructor
      · rw [condAnd_foldl_leaves _ hleaf]
        simp
      · rw [condAnd_foldl_none_iff]
        rw [truthyVersion_eq_false_iff] at htr
        simp [htr]
  | true =>
      simp only [htr, if_true]
      constructor
      · rw [condAnd_elim_leaves _ (Cond.attrEq INTERNAL_OBJECT_VERSION
            (.i (command.current_version.getD 0))) rfl,
          condAnd_foldl_leaves _ hleaf]
        simp
      · have hne : ∀ (acc : Option Cond) (c : Cond), condAnd acc c ≠ none := by
          intro acc c; cases acc <;> simp [condAnd]
        constructor
        · intro h; exact absurd h (hne _ _)
        · rintro ⟨-, h2⟩
          have hf := (truthyVersion_eq_false_iff command.current_version).mpr h2
          rw [htr] at hf
          exact absurd hf (by simp)

/-! ## Conditional-failure translation (claim C5) -/

/-- C5: `execute_update_item` raises the object-state conflict error,
carrying the failed key, exactly when the store raised an exception whose
error code is `ConditionalCheckFailedException`; every other store
exception is re-raised unchanged, and a successful call returns normally. -/
theorem claim5_conflict_translation (key : List (String × String))
    (storeCall : Except PyExc Unit) :
    (storeCall = .ok () → execute_update_item key storeCall = .ok)
    ∧ (∀ ex, storeCall = .error ex →
        get_error_code ex = some "ConditionalCheckFailedException" →
        execute_update_item key storeCall = .requestObjectStateError key ex)
    ∧ (∀ ex, storeCall = .error ex →
        get_error_code ex ≠ some "ConditionalCheckFailedException" →
        execute_update_item key storeCall = .reraised ex)
    ∧ (∀ ex, execute_update_item key storeCall = .requestObjectStateError key ex →
        storeCall = .error ex
          ∧ get_error_code ex = some "ConditionalCheckFailedException") := by
  cases storeCall with
  | ok u =>
      cases u
      refine ⟨fun _ => rfl, ?_, ?_, ?_⟩
      · intro ex h; exact Except.noConfusion h
      · intro ex h; exact Except.noConfusion h
      · intro ex h; simp [execute_update_item] at h
  | error ex0 =>
      refine ⟨fun h => Except.noConfusion h, ?_, ?_, ?_⟩
      · intro ex h hc
        injection h with h2
        subst h2
        simp [execute_update_item, hc]
      · intro ex h hc
        injection h with h2
        subst h2
        simp [execute_update_item, hc]
      · intro ex h
        by_cases hc : get_error_code ex0 = some "ConditionalCheckFailedException"
        · simp only [execute_update_item, hc, if_pos] at h
          cases h
          exact ⟨rfl, hc⟩
        · simp [execute_update_item, hc] at h

/-- C5 witness: a conditional-check failure is translated, another
exception is re-raised unchanged. -/
theorem claim5_witness :
    execute_update_item [("pk", "a")]
        (.error (.withResponse (some "ConditionalCheckFailedException")))
      = .requestObjectStateError [("pk", "a")]
          (.withResponse (some "ConditionalCheckFailedException"))
    ∧ execute_update_item [("pk", "a")] (.error .plain) = .reraised .plain :=
  ⟨(claim5_conflict_translation _ _).2.1 _ rfl (by decide),
   (claim5_conflict_translation _ _).2.2.1 _ rfl (by decide)⟩

/-! ## Association-list lemmas for the dict mutations -/

theorem alookup_aset_self (k : String) (v : α) :
    ∀ l : List (String × α), alookup k (aset k v l) = some v
  | [] => by simp [aset, alookup]
  | (k2, v2) :: rest => by
      by_cases h : k2 = k
      · subst h; simp [aset, alookup]
      · simp [aset, h, alookup, alookup_aset_self k v rest]

theorem alookup_aset_ne (k k2 : String) (v : α) (h : k ≠ k2) :
    ∀ l : List (String × α), alookup k (aset k2 v l) = alookup k l
  | [] => by simp [aset, alookup, Ne.symm h]
  | (k3, v3) :: rest => by
      by_cases h3 : k3 = k2
      · subst h3
        simp [aset, alookup, Ne.symm h]
      · by_cases hk : k3 = k
        · simp [aset, h3, alookup, hk, h]
        · simp [aset, h3, alookup, hk, alookup_aset_ne k k2 v h rest]

theorem alookup_apop_ne (k k2 : String) (h : k ≠ k2) :
    ∀ l : List (String × α), alookup k (apop k2 l) = alookup k l
  | [] => rfl
  | (k3, v3) :: rest => by
      by_cases h3 : k3 = k2
      · subst h3
        simp [apop, alookup, Ne.symm h, alookup_apop_ne k k3 h rest]
      · by_cases hk : k3 = k
        · simp [apop, alookup, h3, hk, h]
        · simp [apop, alookup, h3, hk, alookup_apop_ne k k2 h rest]

/-! ## Frame effect of the update compiler (claim C10) -/

/-- C10: `build_update_args_for_command` mutates the caller's command: the
returned command object's `set_commands` holds the injected timestamp (and
the TTL epoch when `expiry` was set) and its `increment_attrs` maps the
internal version key to 1. -/
theorem claim10_command_mutation (command : UpdateCommand)
    (key : Option (List (String × String))) (nowIso : String) :
    alookup INTERNAL_TIMESTAMP_KEY
        ((build_update_args_for_command command key nowIso).2).set_commands
      = some (.pdate nowIso)
    ∧ alookup INTERNAL_OBJECT_VERSION
        ((build_update_args_for_command command key nowIso).2).increment_attrs
      = some 1
    ∧ ∀ e, command.expiry = some e →
        alookup INTERNAL_TTL
            ((build_update_args_for_command command key nowIso).2).set_commands
          = some (.pint e) := by
  refine ⟨?_, ?_, ?_⟩
  · show alookup INTERNAL_TIMESTAMP_KEY (mutatedSetCommands command nowIso)
      = some (.pdate nowIso)
    unfold mutatedSetCommands
    cases command.expiry with
    | none =>
        rw [alookup_apop_ne _ _ (by decide), alookup_aset_self]
    | some e =>
        rw [alookup_apop_ne _ _ (by decide), alookup_aset_ne _ _ _ (by decide),
          alookup_aset_self]
  · show alookup INTERNAL_OBJECT_VERSION (mutatedIncrementAttrs command) = some 1
    unfold mutatedIncrementAttrs
    rw [alookup_apop_ne _ _ (by decide), alookup_aset_self]
  · intro e he
    show alookup INTERNAL_TTL (mutatedSetCommands command nowIso) = some (.pint e)
    unfold mutatedSetCommands
    rw [he, alookup_apop_ne _ _ (by decide), alookup_aset_self]

/-- C10 witness: the mutation observed on a concrete command with an
expiry. -/
theorem claim10_witness :
    alookup INTERNAL_TIMESTAMP_KEY
        ((build_update_args_for_command exCmd4 none "T").2).set_commands
      = some (.pdate "T")
    ∧ alookup INTERNAL_OBJECT_VERSION
        ((build_update_args_for_command exCmd4 none "T").2).increment_attrs
      = some 1
    ∧ alookup INTERNAL_TTL
        ((build_update_args_for_command exCmd4 none "T").2).set_commands
      = some (.pint 1000) :=
  ⟨(claim10_command_mutation exCmd4 none "T").1,
   (claim10_command_mutation exCmd4 none "T").2.1,
   (claim10_command_mutation exCmd4 none "T").2.2 1000 rfl⟩

/-! ## Protected internal fields in the compiled update (claim C4) -/

theorem apop_mem_ne (k : String) :
    ∀ (l : List (String × α)) (p : String × α), p ∈ apop k l → p.1 ≠ k
  | [], p, hp => by simp [apop] at hp
  | (k2, v) :: rest, p, hp => by
      by_cases h : k2 = k
      · rw [apop, if_pos h] at hp
        exact apop_mem_ne k rest p hp
      · rw [apop, if_neg h] at hp
        rcases List.mem_cons.mp hp with rfl | hmem
        · exact h
        · exact apop_mem_ne k rest p hmem

theorem apop_mem_subset (k : String) :
    ∀ (l : List (String × α)) (p : String × α), p ∈ apop k l → p ∈ l
  | [], p, hp => by simp [apop] at hp
  | (k2, v) :: rest, p, hp => by
      by_cases h : k2 = k
      · rw [apop, if_pos h] at hp
        exact List.mem_cons_of_mem _ (apop_mem_subset k rest p hp)
      · rw [apop, if_neg h] at hp
        rcases List.mem_cons.mp hp with rfl | hmem
        · exact List.mem_cons_self _ _
        · exact List.mem_cons_of_mem _ (apop_mem_subset k rest p hmem)

theorem filter_key_not_mem (k : String) :
    ∀ l : List (String × α), k ∉ l.map Prod.fst →
      l.filter (fun p => p.1 == k) = []
  | [], _ => rfl
  | (k2, v) :: rest, h => by
      simp only [List.map_cons, List.mem_cons, not_or] at h
      rw [List.filter_cons]
      have : ((k2, v).1 == k) = false := by
        simpa using Ne.symm h.1
      rw [this]
      exact filter_key_not_mem k rest h.2

theorem filter_key_aset_self (k : String) (v : α) :
    ∀ l : List (String × α), (l.map Prod.fst).Nodup →
      (aset k v l).filter (fun p => p.1 == k) = [(k, v)]
  | [], _ => by simp [aset]
  | (k2, v2) :: rest, hnd => by
      simp only [List.map_cons, List.nodup_cons] at hnd
      by_cases h : k2 = k
      · subst h
        rw [aset, if_pos rfl, List.filter_cons]
        simp only [beq_self_eq_true, if_pos]
        rw [filter_key_not_mem k2 rest hnd.1]
      · rw [aset, if_neg h, List.filter_cons]
        have : ((k2, v2).1 == k) = false := by simpa using h
        rw [this]
        exact filter_key_aset_self k v rest hnd.2

theorem filter_key_apop_ne (k k2 : String) (h : k ≠ k2) :
    ∀ l : List (String × α),
      (apop k2 l).filter (fun p => p.1 == k) = l.filter (fun p => p.1 == k)
  | [] => rfl
  | (k3, v) :: rest => by
      by_cases h3 : k3 = k2
      · rw [apop, if_pos h3, List.filter_cons]
        have : ((k3, v).1 == k) = false := by
          simp only [beq_eq_false_iff_ne, ne_eq]
          rw [h3]; exact Ne.symm h
        rw [this]
        exact filter_key_apop_ne k k2 h rest
      · rw [apop, if_neg h3, List.filter_cons, List.filter_cons]
        cases hb : ((k3, v).1 == k) with
        | true => rw [filter_key_apop_ne k k2 h rest]
        | false => exact filter_key_apop_ne k k2 h rest

theorem cleanClause_kind (c c' : Clause) (h : cleanClause c = some c') :
    isVersionIncr c' = isVersionIncr c
    ∧ (isVersionIncr c = true → c' = c)
    ∧ (∀ f, setsField f c' = setsField f c)
    ∧ (∀ f, incrOrAppendsField f c' = incrOrAppendsField f c) := by
  cases c with
  | setTop k v =>
      simp only [cleanClause, Option.map_eq_some'] at h
      obtain ⟨v2, -, rfl⟩ := h
      exact ⟨rfl, by intro hx; simp [isVersionIncr] at hx, fun f => rfl, fun f => rfl⟩
  | setNested b p v =>
      simp only [cleanClause, Option.map_eq_some'] at h
      obtain ⟨v2, -, rfl⟩ := h
      exact ⟨rfl, by intro hx; simp [isVersionIncr] at hx, fun f => rfl, fun f => rfl⟩
  | incr k n =>
      simp only [cleanClause, Option.some.injEq] at h
      subst h
      exact ⟨rfl, fun _ => rfl, fun f => rfl, fun f => rfl⟩
  | append k v =>
      simp only [cleanClause, Option.map_eq_some'] at h
      obtain ⟨v2, -, rfl⟩ := h
      exact ⟨rfl, by intro hx; simp [isVersionIncr] at hx, fun f => rfl, fun f => rfl⟩

theorem mapM_cleanClause_filter :
    ∀ (l l' : List Clause), l.mapM cleanClause = some l' →
      l'.filter isVersionIncr = l.filter isVersionIncr
  | [], l', h => by
      simp only [List.mapM_nil, Option.pure_def, Option.some.injEq] at h
      subst h; rfl
  | c :: rest, l', h => by
      rw [List.mapM_cons] at h
      simp only [bind, Option.pure_def, Option.bind_eq_some, Option.some.injEq] at h
      obtain ⟨c', hc, rest', hr, rfl⟩ := h
      obtain ⟨hk, hid, -, -⟩ := cleanClause_kind c c' hc
      rw [List.filter_cons, List.filter_cons, hk]
      cases hv : isVersionIncr c with
      | true =>
          rw [hid hv, mapM_cleanClause_filter rest rest' hr]
      | false =>
          exact mapM_cleanClause_filter rest rest' hr

theorem mapM_cleanClause_mem :
    ∀ (l l' : List Clause), l.mapM cleanClause = some l' →
      ∀ c' ∈ l', ∃ c ∈ l, cleanClause c = some c'
  | [], l', h => by
      simp only [List.mapM_nil, Option.pure_def, Option.some.injEq] at h
      subst h; intro c' hc'; simp at hc'
  | c :: rest, l', h => by
      rw [List.mapM_cons] at h
      simp only [bind, Option.pure_def, Option.bind_eq_some, Option.some.injEq] at h
      obtain ⟨c', hc, rest', hr, rfl⟩ := h
      intro c2 hc2
      rcases List.mem_cons.mp hc2 with rfl | hmem
      · exact ⟨c, List.mem_cons_self _ _, hc⟩
      · obtain ⟨c0, hc0, he⟩ := mapM_cleanClause_mem rest rest' hr c2 hmem
        exact ⟨c0, List.mem_cons_of_mem _ hc0, he⟩


theorem setClausesOf_facts (s : List (String × PyVal)) (c : Clause)
    (hc : c ∈ setClausesOf s) :
    isVersionIncr c = false
    ∧ (∀ f, incrOrAppendsField f c = false)
    ∧ ∃ kv, kv ∈ s ∧ ∀ f, setsField f c = true → f = kv.1 := by
  simp only [setClausesOf, List.mem_flatMap] at hc
  obtain ⟨⟨k, v⟩, hkv, hcin⟩ := hc
  cases v with
  | dict d =>
      simp only [List.mem_map] at hcin
      obtain ⟨skv, -, rfl⟩ := hcin
      refine ⟨rfl, fun f => rfl, ⟨k, .dict d⟩, hkv, fun f hf => ?_⟩
      have hkf : k = f := by simpa [setsField] using hf
      exact hkf.symm
  | pint n =>
      simp only [List.mem_singleton] at hcin
      subst hcin
      refine ⟨rfl, fun f => rfl, ⟨k, .pint n⟩, hkv, fun f hf => ?_⟩
      have hkf : k = f := by simpa [setsField] using hf
      exact hkf.symm
  | pstr sv =>
      simp only [List.mem_singleton] at hcin
      subst hcin
      refine ⟨rfl, fun f => rfl, ⟨k, .pstr sv⟩, hkv, fun f hf => ?_⟩
      have hkf : k = f := by simpa [setsField] using hf
      exact hkf.symm
  | pnone =>
      simp only [List.mem_singleton] at hcin
      subst hcin
      refine ⟨rfl, fun f => rfl, ⟨k, .pnone⟩, hkv, fun f hf => ?_⟩
      have hkf : k = f := by simpa [setsField] using hf
      exact hkf.symm
  | pdate sv =>
      simp only [List.mem_singleton] at hcin
      subst hcin
      refine ⟨rfl, fun f => rfl, ⟨k, .pdate sv⟩, hkv, fun f hf => ?_⟩
      have hkf : k = f := by simpa [setsField] using hf
      exact hkf.symm
  | penum p =>
      simp only [List.mem_singleton] at hcin
      subst hcin
      refine ⟨rfl, fun f => rfl, ⟨k, .penum p⟩, hkv, fun f hf => ?_⟩
      have hkf : k = f := by simpa [setsField] using hf
      exact hkf.symm
  | model d =>
      simp only [List.mem_singleton] at hcin
      subst hcin
      refine ⟨rfl, fun f => rfl, ⟨k, .model d⟩, hkv, fun f hf => ?_⟩
      have hkf : k = f := by simpa [setsField] using hf
      exact hkf.symm
  | plist l0 =>
      simp only [List.mem_singleton] at hcin
      subst hcin
      refine ⟨rfl, fun f => rfl, ⟨k, .plist l0⟩, hkv, fun f hf => ?_⟩
      have hkf : k = f := by simpa [setsField] using hf
      exact hkf.symm
  | pset l0 =>
      simp only [List.mem_singleton] at hcin
      subst hcin
      refine ⟨rfl, fun f => rfl, ⟨k, .pset l0⟩, hkv, fun f hf => ?_⟩
      have hkf : k = f := by simpa [setsField] using hf
      exact hkf.symm

theorem incrClausesOf_filter (a : List (String × Int)) :
    (incrClausesOf a).filter isVersionIncr
      = (a.filter (fun kv => kv.1 == INTERNAL_OBJECT_VERSION)).map
          (fun kv => Clause.incr kv.1 kv.2) := by
  induction a with
  | nil => rfl
  | cons kv rest ih =>
      simp only [incrClausesOf, List.map_cons, List.filter_cons] at ih ⊢
      cases hb : (kv.1 == INTERNAL_OBJECT_VERSION) with
      | true => simp [isVersionIncr, hb, ih, incrClausesOf]
      | false => simp [isVersionIncr, hb, ih, incrClausesOf]

theorem claim4_helper_raw_facts (command : UpdateCommand) (nowIso : String) :
    (∀ c ∈ setClausesOf (mutatedSetCommands command nowIso)
        ++ incrClausesOf (mutatedIncrementAttrs command)
        ++ appendClausesOf (mutatedAppendAttrs command),
      setsField INTERNAL_OBJECT_VERSION c = false
        ∧ incrOrAppendsField INTERNAL_TIMESTAMP_KEY c = false) := by
  intro c hc
  rcases List.mem_append.mp hc with hc1 | hc2
  · rcases List.mem_append.mp hc1 with hset | hincr
    · obtain ⟨-, hnoincr, kv, hkv, hsets⟩ := setClausesOf_facts _ c hset
      constructor
      · cases hb : setsField INTERNAL_OBJECT_VERSION c with
        | false => rfl
        | true =>
            have := hsets _ hb
            have hne := apop_mem_ne INTERNAL_OBJECT_VERSION _ kv hkv
            exact absurd this.symm hne
      · exact hnoincr _
    · simp only [incrClausesOf, List.mem_map] at hincr
      obtain ⟨kv, hkv, rfl⟩ := hincr
      refine ⟨rfl, ?_⟩
      have hne := apop_mem_ne INTERNAL_TIMESTAMP_KEY _ kv hkv
      simpa [incrOrAppendsField] using hne
  · simp only [appendClausesOf, List.mem_map] at hc2
    obtain ⟨kv, hkv, rfl⟩ := hc2
    refine ⟨rfl, ?_⟩
    have hsub := apop_mem_subset INTERNAL_OBJECT_VERSION _ kv hkv
    have hne := apop_mem_ne INTERNAL_TIMESTAMP_KEY _ kv hsub
    simpa [incrOrAppendsField] using hne

/-- C4: every compiled update contains exactly one increment clause for the
internal object-version field, with delta 1; the version key is never a SET
target and the timestamp key never an increment or append target, whatever
the caller put in `set_commands`, `increment_attrs` or `append_attrs`. -/
theorem claim4_protected_internal_fields (command : UpdateCommand)
    (key : Option (List (String × String))) (nowIso : String)
    (hnodup : (command.increment_attrs.map Prod.fst).Nodup)
    (args : UpdateItemArguments)
    (hargs : (build_update_args_for_command command key nowIso).1 = some args) :
    args.clauses.filter isVersionIncr
      = [.incr INTERNAL_OBJECT_VERSION 1]
    ∧ (∀ c ∈ args.clauses, setsField INTERNAL_OBJECT_VERSION c = false)
    ∧ (∀ c ∈ args.clauses, incrOrAppendsField INTERNAL_TIMESTAMP_KEY c = false) := by
  simp only [build_update_args_for_command, Option.map_eq_some'] at hargs
  obtain ⟨cs, hmapM, hb⟩ := hargs
  have hclauses : args.clauses = cs := by rw [← hb]
  rw [hclauses]
  have hfilter := mapM_cleanClause_filter _ _ hmapM
  have hmem := mapM_cleanClause_mem _ _ hmapM
  have hraw := claim4_helper_raw_facts command nowIso
  refine ⟨?_, ?_, ?_⟩
  · rw [hfilter, List.filter_append, List.filter_append]
    have h1 : (setClausesOf (mutatedSetCommands command nowIso)).filter isVersionIncr
        = [] := by
      rw [List.filter_eq_nil_iff]
      intro c hc
      obtain ⟨hno, -, -⟩ := setClausesOf_facts _ c hc
      simp [hno]
    have h3 : (appendClausesOf (mutatedAppendAttrs command)).filter isVersionIncr
        = [] := by
      rw [List.filter_eq_nil_iff]
      intro c hc
      simp only [appendClausesOf, List.mem_map] at hc
      obtain ⟨kv, -, rfl⟩ := hc
      simp [isVersionIncr]
    have h2 : (incrClausesOf (mutatedIncrementAttrs command)).filter isVersionIncr
        = [.incr INTERNAL_OBJECT_VERSION 1] := by
      rw [incrClausesOf_filter]
      unfold mutatedIncrementAttrs
      rw [filter_key_apop_ne _ _ (by decide), filter_key_aset_self _ _ _ hnodup]
      rfl
    rw [h1, h2, h3]
    rfl
  · intro c' hc'
    obtain ⟨c, hcr, hcc⟩ := hmem c' hc'
    obtain ⟨-, -, hpres, -⟩ := cleanClause_kind c c' hcc
    rw [hpres]
    exact (hraw c hcr).1
  · intro c' hc'
    obtain ⟨c, hcr, hcc⟩ := hmem c' hc'
    obtain ⟨-, -, -, hpres⟩ := cleanClause_kind c c' hcc
    rw [hpres]
    exact (hraw c hcr).2

/-- C4 witness: a command that tries to set the version, increment the
timestamp and append to the timestamp still compiles to exactly one
version increment with delta 1 and no protected targets. -/
theorem claim4_witness :
    ∃ args, (build_update_args_for_command exCmd4 none "T").1 = some args
      ∧ args.clauses.filter isVersionIncr = [.incr INTERNAL_OBJECT_VERSION 1]
      ∧ (∀ c ∈ args.clauses, setsField INTERNAL_OBJECT_VERSION c = false)
      ∧ (∀ c ∈ args.clauses, incrOrAppendsField INTERNAL_TIMESTAMP_KEY c = false) := by
  refine ⟨((build_update_args_for_command exCmd4 none "T").1).get (by decide), ?_, ?_⟩
  · simp
  · exact claim4_protected_internal_fields exCmd4 none "T" (by decide) _ (by simp)

/-! ## Validator aggregation (claim C3) -/

theorem collectSetErrors_eq_spec (schema : Schema) :
    ∀ cmds : List (String × PyVal), schemaWFFor schema cmds = true →
      collectSetErrors schema cmds = .ok (specSetViolations schema cmds)
  | [], _ => rfl
  | (k, v) :: rest, hwf => by
      simp only [schemaWFFor, List.all_cons, Bool.and_eq_true] at hwf
      obtain ⟨hh, ht⟩ := hwf
      have ih := collectSetErrors_eq_spec schema rest
        (by simpa [schemaWFFor] using ht)
      simp only [specSetViolations, List.flatMap_cons]
      cases hprop : alookup k schema.properties with
      | none =>
          rw [collectSetErrors]
          simp [specSetViolations, hprop, ih, Except.map]
      | some prop =>
          simp only [hprop] at hh
          cases v with
          | dict d =>
              cases href : prop.ref with
              | some r =>
                  simp only [href] at hh
                  obtain ⟨np, hnp⟩ := Option.isSome_iff_exists.mp hh
                  rw [collectSetErrors]
                  simp [specSetViolations, hprop, href, hnp, ih, Except.map]
              | none =>
                  simp only [href] at hh
                  obtain ⟨t, htt⟩ := Option.isSome_iff_exists.mp hh
                  rw [collectSetErrors]
                  by_cases hobj : t = "object"
                  · subst hobj
                    simp [specSetViolations, hprop, href, htt, ih, Except.map]
                  · simp [specSetViolations, hprop, href, htt, hobj, ih, Except.map]
          | pint n => rw [collectSetErrors]; simp [specSetViolations, hprop, ih]
          | pstr s => rw [collectSetErrors]; simp [specSetViolations, hprop, ih]
          | pnone => rw [collectSetErrors]; simp [specSetViolations, hprop, ih]
          | pdate s => rw [collectSetErrors]; simp [specSetViolations, hprop, ih]
          | penum p => rw [collectSetErrors]; simp [specSetViolations, hprop, ih]
          | model d => rw [collectSetErrors]; simp [specSetViolations, hprop, ih]
          | plist l0 => rw [collectSetErrors]; simp [specSetViolations, hprop, ih]
          | pset l0 => rw [collectSetErrors]; simp [specSetViolations, hprop, ih]

theorem collectIncrErrors_eq_filter (schema : Schema) :
    ∀ ks : List String, (∀ k ∈ ks, (alookup k schema.properties).isSome = true) →
      collectIncrErrors schema ks
        = .ok (ks.filter (fun k =>
            ¬((alookup k schema.properties).elim false
              (fun p => p.type = some "integer"))))
  | [], _ => rfl
  | k :: rest, hall => by
      have hk := hall k (List.mem_cons_self _ _)
      obtain ⟨prop, hprop⟩ := Option.isSome_iff_exists.mp hk
      have ih := collectIncrErrors_eq_filter schema rest
        (fun k2 hk2 => hall k2 (List.mem_cons_of_mem _ hk2))
      rw [collectIncrErrors, hprop, ih, List.filter_cons]
      by_cases hint : prop.type = some "integer"
      · simp [hprop, hint, Except.map]
      · simp [hprop, hint, Except.map]

theorem validate_attrs_eq_spec (schema : Schema) (command : UpdateCommand) :
    validate_attrs_in_schema schema
        (command.increment_attrs.map Prod.fst ++ command.append_attrs.map Prod.fst)
      = (if specUnknownAttrs schema command ≠ [] then
           .error (.valueError .unknownAttrs schema.title (specUnknownAttrs schema command))
         else .ok ()) := by
  unfold validate_attrs_in_schema specUnknownAttrs
  by_cases h : ((command.increment_attrs.map Prod.fst
      ++ command.append_attrs.map Prod.fst).filter
        (fun a => (alookup a schema.properties).isNone)) = []
  · rw [h]
    simp
  · rw [if_pos (List.length_pos.mpr h), if_pos h]

/-- C3 (amended): the validator accumulates violations per category and
raises one error for the first violated category, listing exactly that
category's offending fields: all set-command violations first, else all
unknown increment/append keys, else all non-integer increment keys; it
succeeds iff no category has violations.  (Stated under well-formedness of
the schema refs, which rules out the KeyError paths.) -/
theorem claim3_validator_category_aggregation (schema : Schema) (command : UpdateCommand)
    (hwf : schemaWFFor schema command.set_commands = true) :
    validate_command_for_schema schema command
      = (if specSetViolations schema command.set_commands ≠ [] then
           .error (.valueError .setAttrs schema.title
             (specSetViolations schema command.set_commands))
         else if specUnknownAttrs schema command ≠ [] then
           .error (.valueError .unknownAttrs schema.title
             (specUnknownAttrs schema command))
         else if specNonIntIncrs schema command ≠ [] then
           .error (.valueError .incrNotInt schema.title
             (specNonIntIncrs schema command))
         else .ok ()) := by
  unfold validate_command_for_schema
  rw [collectSetErrors_eq_spec schema _ hwf]
  by_cases hsv : specSetViolations schema command.set_commands = []
  · simp only [hsv, bind, Except.bind, List.length_nil, gt_iff_lt, Nat.lt_irrefl,
      if_false, ne_eq, not_true_eq_false]
    rw [validate_attrs_eq_spec schema command]
    by_cases hua : specUnknownAttrs schema command = []
    · have hpresent : ∀ k ∈ command.increment_attrs.map Prod.fst,
          (alookup k schema.properties).isSome = true := by
        intro k hk
        have hkin : k ∈ (command.increment_attrs.map Prod.fst
            ++ command.append_attrs.map Prod.fst) := List.mem_append_left _ hk
        have hfil := List.filter_eq_nil_iff.mp hua k hkin
        cases halo : alookup k schema.properties with
        | none => rw [halo] at hfil; simp at hfil
        | some p => rfl
      simp only [hua, ne_eq, not_true_eq_false, if_false, bind, Except.bind]
      rw [collectIncrErrors_eq_filter schema _ hpresent]
      have hfold : ((command.increment_attrs.map Prod.fst).filter (fun k =>
          ¬((alookup k schema.properties).elim false
            (fun p => p.type = some "integer")))) = specNonIntIncrs schema command := rfl
      rw [hfold]
      by_cases hni : specNonIntIncrs schema command = []
      · simp only [hni, ne_eq, not_true_eq_false, if_false, bind, Except.bind,
          List.length_nil, gt_iff_lt, Nat.lt_irrefl, pure, Except.pure]
      · have hlen := List.length_pos.mpr hni
        simp only [hni, ne_eq, not_false_eq_true, if_true, bind, Except.bind,
          gt_iff_lt, hlen, throw, throwThe, MonadExceptOf.throw, pure, Except.pure]
    · have hlen := List.length_pos.mpr hua
      simp only [hua, ne_eq, not_false_eq_true, if_true, bind, Except.bind,
        gt_iff_lt, hlen, throw, throwThe, MonadExceptOf.throw, pure, Except.pure]
  · have hlen := List.length_pos.mpr hsv
    simp only [hsv, ne_eq, not_false_eq_true, if_true, bind, Except.bind,
      gt_iff_lt, hlen, throw, throwThe, MonadExceptOf.throw, pure, Except.pure]

/-- C3 counterexample: a command with an unknown set key (`bad1`) and an
unknown increment key (`bad2`) — two invalid fields — raises a single error
listing only `bad1`: the aggregate is per category, not across categories. -/
theorem claim3_counterexample :
    validate_command_for_schema exSchemaA exBadCmd
      = .error (.valueError .setAttrs "Example" ["bad1"])
    ∧ "bad2" ∈ specUnknownAttrs exSchemaA exBadCmd
    ∧ "bad2" ∉ (["bad1"] : List String) :=
  ⟨rfl, by decide, by decide⟩

/-- C3 witness: three set-command violations of different kinds are all
listed, completely and in order, in the one raised error. -/
theorem claim3_witness :
    schemaWFFor exSchemaA exMultiBadCmd.set_commands = true
    ∧ validate_command_for_schema exSchemaA exMultiBadCmd
        = .error (.valueError .setAttrs "Example" ["bad1", "nested.y", "f"]) := by
  refine ⟨by decide, ?_⟩
  have h := claim3_validator_category_aggregation exSchemaA exMultiBadCmd (by decide)
  rw [h]
  rfl

/-! ## Batch-get chunking and unprocessed-keys reissue (claim C6) -/

theorem chunks_cons_eq (s : Nat) (l : List α) (h : l ≠ []) :
    chunks l (s + 1) = l.take (s + 1) :: chunks (l.drop (s + 1)) (s + 1) := by
  have hlen : 0 < l.length := List.length_pos.mpr h
  unfold chunks
  have h1 : l.length + (s + 1) - 1 = (l.length - 1) + (s + 1) := by omega
  have h2 : ((l.length - 1) + (s + 1)) / (s + 1) = (l.length - 1) / (s + 1) + 1 :=
    Nat.add_div_right _ (Nat.succ_pos s)
  have h3 : ((l.drop (s + 1)).length + (s + 1) - 1) / (s + 1)
      = (l.length - 1) / (s + 1) := by
    rw [List.length_drop]
    rcases le_or_lt (s + 1) l.length with hle | hlt
    · congr 1
      omega
    · rw [Nat.div_eq_of_lt (by omega), Nat.div_eq_of_lt (by omega)]
  rw [h1, h2, h3, chunksN]

theorem chunks_flatten (s : Nat) : ∀ l : List α, (chunks l (s + 1)).flatten = l
  | l => by
      by_cases h : l = []
      · subst h
        simp only [chunks, List.length_nil]
        rw [show (0 + (s + 1) - 1) / (s + 1) = 0 from Nat.div_eq_of_lt (by omega)]
        rfl
      · rw [chunks_cons_eq s l h, List.flatten_cons,
          chunks_flatten s (l.drop (s + 1))]
        exact List.take_append_drop (s + 1) l
  termination_by l => l.length
  decreasing_by
    have h0 : 0 < l.length := List.length_pos.mpr h
    simp only [List.length_drop]
    exact Nat.sub_lt h0 (Nat.succ_pos s)

theorem chunksN_length_le (size : Nat) :
    ∀ (n : Nat) (l : List α), ∀ c ∈ chunksN size l n, c.length ≤ size
  | 0, l => by simp [chunksN]
  | n + 1, l => by
      intro c hc
      rcases List.mem_cons.mp hc with rfl | hmem
      · simp only [List.length_take]
        exact Nat.min_le_left _ _
      · exact chunksN_length_le size n (l.drop size) c hmem

theorem chunks_length_le (l : List α) (size : Nat) :
    ∀ c ∈ chunks l size, c.length ≤ size := by
  intro c hc
  exact chunksN_length_le size _ l c hc

theorem unprocessedCalls_chain [DecidableEq κ] (store : List κ → BatchResp κ ι) :
    ∀ (fuel : Nat) (first : List κ) (calls : List (List κ)),
      unprocessedCalls store (store first) fuel = some calls →
      reissueChain store (first :: calls) = true
  | 0, first, calls, h => by
      rw [unprocessedCalls] at h
      by_cases he : (store first).unprocessed.isEmpty
      · rw [if_pos he] at h
        injection h with h2
        subst h2
        simpa [reissueChain] using he
      · rw [if_neg he] at h
        cases h
  | fuel + 1, first, calls, h => by
      rw [unprocessedCalls] at h
      by_cases he : (store first).unprocessed.isEmpty
      · rw [if_pos he] at h
        injection h with h2
        subst h2
        simpa [reissueChain] using he
      · rw [if_neg he] at h
        simp only [Option.map_eq_some'] at h
        obtain ⟨calls2, h2, rfl⟩ := h
        have ih := unprocessedCalls_chain store fuel (store first).unprocessed calls2 h2
        have hne : (store first).unprocessed.isEmpty = false := by
          simpa using he
        simp [reissueChain, ih, hne]

theorem mapM_chunkCalls_forall₂ [DecidableEq κ] (store : List κ → BatchResp κ ι)
    (fuel : Nat) :
    ∀ (cs : List (List κ)) (groups : List (List (List κ))),
      cs.mapM (fun c => chunkCalls store c fuel) = some groups →
      List.Forall₂ (fun g c => g.head? = some c ∧ reissueChain store g = true)
        groups cs
  | [], groups, h => by
      simp only [List.mapM_nil, Option.pure_def, Option.some.injEq] at h
      subst h
      exact List.Forall₂.nil
  | c :: rest, groups, h => by
      rw [List.mapM_cons] at h
      simp only [bind, Option.pure_def, Option.bind_eq_some, Option.some.injEq] at h
      obtain ⟨g, hg, gs, hgs, rfl⟩ := h
      refine List.Forall₂.cons ?_ (mapM_chunkCalls_forall₂ store fuel rest gs hgs)
      unfold chunkCalls at hg
      simp only [Option.map_eq_some'] at hg
      obtain ⟨calls, hcalls, rfl⟩ := hg
      exact ⟨rfl, unprocessedCalls_chain store fuel c calls hcalls⟩

theorem forall₂_mem_right {R : α → β → Prop} :
    ∀ {l1 : List α} {l2 : List β}, List.Forall₂ R l1 l2 →
      ∀ b ∈ l2, ∃ a ∈ l1, R a b := by
  intro l1 l2 h
  induction h with
  | nil => intro b hb; simp at hb
  | cons hab htail ih =>
      intro b hb
      rcases List.mem_cons.mp hb with rfl | hmem
      · exact ⟨_, List.mem_cons_self _ _, hab⟩
      · obtain ⟨a, ha, hr⟩ := ih b hmem
        exact ⟨a, List.mem_cons_of_mem _ ha, hr⟩

/-- C6: `get_batch` splits the requested keys into consecutive chunks of at
most 100 (their concatenation is the original sequence), issues one batch
request per chunk, and reissues, for any response with unprocessed keys,
exactly those keys until the store returns an empty unprocessed set; hence
every requested key appears in some issued request. -/
theorem claim6_get_batch_chunking [DecidableEq κ]
    (store : List κ → BatchResp κ ι) (ids : List κ) (fuel : Nat)
    (groups : List (List (List κ)))
    (h : get_batch_calls store ids fuel = some groups) :
    (chunks ids 100).flatten = ids
    ∧ (∀ c ∈ chunks ids 100, c.length ≤ 100)
    ∧ List.Forall₂ (fun g c => g.head? = some c ∧ reissueChain store g = true)
        groups (chunks ids 100)
    ∧ ∀ k ∈ ids, ∃ call, (∃ g ∈ groups, call ∈ g) ∧ k ∈ call := by
  have hflat : (chunks ids 100).flatten = ids := chunks_flatten 99 ids
  have hf2 := mapM_chunkCalls_forall₂ store fuel (chunks ids 100) groups h
  refine ⟨hflat, chunks_length_le ids 100, hf2, ?_⟩
  intro k hk
  have hkfl : k ∈ (chunks ids 100).flatten := by rw [hflat]; exact hk
  obtain ⟨c, hc, hkc⟩ := List.mem_flatten.mp hkfl
  obtain ⟨g, hg, hhead, -⟩ := forall₂_mem_right hf2 c hc
  refine ⟨c, ⟨g, hg, ?_⟩, hkc⟩
  cases g with
  | nil => simp at hhead
  | cons g0 gt =>
      simp only [List.head?_cons, Option.some.injEq] at hhead
      subst hhead
      exact List.mem_cons_self _ _

/-- C6 witness: three keys in one chunk; the store leaves key 3 unprocessed
once; the trace is the chunk request followed by the reissue of exactly
`[3]`. -/
theorem claim6_witness :
    get_batch_calls exBatchStore [1, 2, 3] 2 = some [[[1, 2, 3], [3]]]
    ∧ ((chunks [1, 2, 3] 100).flatten = [1, 2, 3]
       ∧ (∀ c ∈ chunks [(1 : Nat), 2, 3] 100, c.length ≤ 100)
       ∧ List.Forall₂ (fun g c => g.head? = some c
            ∧ reissueChain exBatchStore g = true)
          [[[1, 2, 3], [3]]] (chunks [1, 2, 3] 100)
       ∧ ∀ k ∈ [1, 2, 3], ∃ call, (∃ g ∈ [[[(1 : Nat), 2, 3], [3]]], call ∈ g)
            ∧ k ∈ call) :=
  ⟨by decide, claim6_get_batch_chunking exBatchStore [1, 2, 3] 2 _ (by decide)⟩

/-! ## Pagination limit forwarding and stop condition (claim C1) -/

theorem build_query_kwargs_fields (schema : Schema) (keyCond : KeyCondExpr)
    (asc : Bool) (limit : Option Nat) (filters : Option FilterCommand)
    (kwargs : QueryKwargs)
    (h : build_query_kwargs schema keyCond asc limit filters = .ok kwargs) :
    kwargs.limit = (if truthyLimit limit && kwargs.filterExpr.isNone then limit
                    else none)
    ∧ kwargs.keyCondition = keyCond ∧ kwargs.scanIndexForward = asc := by
  cases filters with
  | none =>
      simp only [build_query_kwargs, bind, Except.bind, pure, Except.pure,
        Except.ok.injEq] at h
      subst h
      exact ⟨rfl, rfl, rfl⟩
  | some f =>
      simp only [build_query_kwargs] at h
      cases hv : validate_filters_for_schema schema f with
      | error e =>
          rw [hv] at h
          simp [bind, Except.bind, throw, throwThe, MonadExceptOf.throw] at h
      | ok u =>
          rw [hv] at h
          cases hbf : build_filter_expression f with
          | none =>
              rw [hbf] at h
              simp [bind, Except.bind, throw, throwThe, MonadExceptOf.throw] at h
          | some fe =>
              rw [hbf] at h
              simp only [bind, Except.bind, pure, Except.pure,
                Except.ok.injEq] at h
              subst h
              exact ⟨rfl, rfl, rfl⟩

theorem query_loop_eq {χ ι : Type} (store : QueryKwargs → Option χ → QueryPage χ ι)
    (kwargs : QueryKwargs) (l : Nat) (hl : 0 < l) (K : Nat)
    (hrun : ∀ j, j < K → stopAfter store kwargs (some l) j = false)
    (hstop : stopAfter store kwargs (some l) K = true) :
    ∀ (fuel i : Nat), i ≤ K → K - i ≤ fuel →
      query_loop store kwargs (some l) (pageAt store kwargs i)
          (totalThrough store kwargs i) fuel
        = (List.range' (i + 1) (K - i)).map
            (fun j => (pageAt store kwargs j).items)
  | 0, i, hiK, hfuel => by
      have hik : i = K := by omega
      subst hik
      rw [Nat.sub_self]
      rfl
  | fuel + 1, i, hiK, hfuel => by
      by_cases hik : i = K
      · subst hik
        rw [Nat.sub_self]
        rw [query_loop]
        cases hcur : (pageAt store kwargs i).lastEvaluatedKey with
        | none => rfl
        | some c =>
            unfold stopAfter at hstop
            rw [hcur] at hstop
            simp only [Option.isNone_some, Bool.false_or, Bool.and_eq_true,
              decide_eq_true_eq, Option.getD_some] at hstop
            simp [hstop.1, hstop.2]
      · have hlt : i < K := by omega
        have hns := hrun i hlt
        unfold stopAfter at hns
        simp only [Bool.or_eq_false_iff] at hns
        obtain ⟨hcurne, hnl⟩ := hns
        cases hcur : (pageAt store kwargs i).lastEvaluatedKey with
        | none => rw [hcur] at hcurne; simp at hcurne
        | some c =>
            rw [query_loop, hcur]
            simp only [hnl, Bool.false_eq_true, if_false]
            have hresp : store kwargs (some c) = pageAt store kwargs (i + 1) := by
              rw [show pageAt store kwargs (i + 1)
                  = store kwargs (pageAt store kwargs i).lastEvaluatedKey from rfl,
                hcur]
            rw [hresp,
              show totalThrough store kwargs i + (pageAt store kwargs (i + 1)).count
                = totalThrough store kwargs (i + 1) from rfl]
            rw [query_loop_eq store kwargs l hl K hrun hstop fuel (i + 1)
              (by omega) (by omega)]
            rw [show K - i = (K - (i + 1)) + 1 by omega, List.range'_succ]
            rfl

/-- C1: with a caller-supplied (truthy) limit, the assembled query kwargs
forward the limit to the store as page size exactly when no filter
expression is attached (none when one is); and the yielded pages are
exactly pages 0..K of the store's cursor chain, where K is the first index
at which the cursor is absent or the running count has reached the limit —
the check performed after a page is yielded and before the next request. -/
theorem claim1_limit_forwarding_and_stop {χ ι : Type}
    (store : QueryKwargs → Option χ → QueryPage χ ι) (schema : Schema)
    (keyCond : KeyCondExpr) (asc : Bool) (l : Nat) (filters : Option FilterCommand)
    (kwargs : QueryKwargs) (K fuel : Nat)
    (hl : 0 < l)
    (hkw : build_query_kwargs schema keyCond asc (some l) filters = .ok kwargs)
    (hrun : ∀ j, j < K → stopAfter store kwargs (some l) j = false)
    (hstop : stopAfter store kwargs (some l) K = true)
    (hfuel : K ≤ fuel) :
    (kwargs.filterExpr = none → kwargs.limit = some l)
    ∧ (kwargs.filterExpr.isSome = true → kwargs.limit = none)
    ∧ query_all_data store schema keyCond asc (some l) filters fuel
        = .ok ((List.range (K + 1)).map (fun i => (pageAt store kwargs i).items)) := by
  obtain ⟨hlim, -, -⟩ := build_query_kwargs_fields schema keyCond asc (some l)
    filters kwargs hkw
  refine ⟨?_, ?_, ?_⟩
  · intro hfe
    rw [hlim, hfe]
    simp [truthyLimit, Nat.pos_iff_ne_zero.mp hl]
  · intro hfe
    rw [hlim]
    rw [Option.isSome_iff_exists] at hfe
    obtain ⟨fe, hfe⟩ := hfe
    rw [hfe]
    simp
  · unfold query_all_data
    rw [hkw]
    simp only [bind, Except.bind, pure, Except.pure, Except.ok.injEq]
    have h0 := query_loop_eq store kwargs l hl K hrun hstop fuel 0
      (Nat.zero_le K) (by omega)
    rw [show store kwargs none = pageAt store kwargs 0 from rfl,
      show (pageAt store kwargs 0).count = totalThrough store kwargs 0 from rfl,
      h0]
    rw [List.range_eq_range']
    rw [List.range'_succ, List.map_cons]
    simp

/-- C1 witness: a not-exists filter is attached, so the store gets no
Limit; with limit 2 the run stops after the second page even though the
store still offers a cursor. -/
theorem claim1_witness :
    (0 : Nat) < 2
    ∧ ((exKwargsA.filterExpr = none → exKwargsA.limit = some 2)
       ∧ (exKwargsA.filterExpr.isSome = true → exKwargsA.limit = none)
       ∧ query_all_data exQStore exSchemaA (.prefixMatch "pk" [] "sk" ['c']) true
           (some 2) (some exFilterA) 1
         = .ok ((List.range 2).map (fun i => (pageAt exQStore exKwargsA i).items))) :=
  ⟨by decide,
   claim1_limit_forwarding_and_stop exQStore exSchemaA
     (.prefixMatch "pk" [] "sk" ['c']) true 2 (some exFilterA) exKwargsA 1 1
     (by decide) (by rfl) (by decide) (by decide) (by decide)⟩

/-! ## list_between equal-range delegation (claim C2) -/

/-- C2 counterexample: with equal start and end, `list_between` drops the
caller's limit (and sort order and filters) when delegating: against a
store whose answer depends on the page-size limit, `list_between` with
limit 1 yields both items while `list` with the same arguments yields one. -/
theorem claim2_counterexample :
    list_between exCfg exLimitStore 0 none (some [['y']]) (some [['y']])
        true (some 1) none
      = .ok [100, 200]
    ∧ listFn exCfg exLimitStore 0 none (some [['y']]) true (some 1) none
      = .ok [100]
    ∧ ([100, 200] : List Nat) ≠ [100] :=
  ⟨rfl, rfl, by decide⟩

/-- C2 (amended): when the defaulted `content_start` equals `content_end`,
`list_between` yields exactly what `list` yields for that partition and
single prefix called with `list`'s own defaults — ascending order, no
limit, no filters; the caller's sort order, limit and filters arguments are
not forwarded. -/
theorem claim2_equal_range_delegates_to_list {χ ι : Type}
    (cfg : RepoConfig) (store : QueryKwargs → Option χ → QueryPage χ ι)
    (fuel : Nat) (partitionIds contentStart contentEnd : Option (List PyStr))
    (asc : Bool) (limit : Option Nat) (filters : Option FilterCommand)
    (heq : contentStart.getD [] = contentEnd.getD []) :
    list_between cfg store fuel partitionIds contentStart contentEnd
        asc limit filters
      = listFn cfg store fuel (some (partitionIds.getD []))
          (some (contentStart.getD [])) true none none := by
  unfold list_between
  rw [if_pos heq]

/-- C2 witness: the delegation observed at a concrete equal range with
non-default sort order and limit. -/
theorem claim2_witness :
    list_between exCfg exLimitStore 0 none (some [['y']]) (some [['y']])
        false (some 5) none
      = listFn exCfg exLimitStore 0 (some []) (some [['y']]) true none none :=
  claim2_equal_range_delegates_to_list exCfg exLimitStore 0 none
    (some [['y']]) (some [['y']]) false (some 5) none rfl
